import Mathlib

/-!
Shallow embedding of the blender-plotting repository's pure computational core
(`blender_plotting/utils/color_scale.py`, `blender_plotting/utils/geometry.py`,
`blender_plotting/utils/movement.py`) over the real numbers, together with
proofs about the embedded functions.

Python floats are modelled as real numbers; numpy arrays of colors as
functions `Fin 3 → ℝ`; fallible code returns `Except String _`, with the
Python exception type recorded in the message string.  External library
functions (numpy-quaternion, `mathutils`) that are direct formulas are
embedded by their formulas; the two that are numerical solvers
(`quat.from_rotation_matrix`, `mathutils.Matrix.decompose`) are modelled by
their documented input/output contracts via classical choice.
-/

open Real
open Classical

noncomputable section

/-- A 3-vector of reals: one RGB color, one translation, one scale triple. -/
abbrev V3 := Fin 3 → ℝ

/-- 3x3 real matrix. -/
abbrev M3 := Matrix (Fin 3) (Fin 3) ℝ

/-- 4x4 real matrix. -/
abbrev M4 := Matrix (Fin 4) (Fin 4) ℝ

/-- `np.clip(x, lo, hi)`: clamp below at `lo` first, then above at `hi`. -/
def npClip (x lo hi : ℝ) : ℝ := min hi (max lo x)

/-- The search performed by the loop
`for i, a in enumerate(np.linspace(0, 1, N+1)): if t <= a + 1/N: ... break`
in `squaredlerp`: the first index `i` in `[start, start+fuel)` with
`t ≤ i/Nr + 1/Nr`, where `Nr` is the real value of `N` (so `a = i/Nr` is the
`i`-th linspace node).  Returns `none` when the loop finishes without `break`. -/
def firstLe (t Nr : ℝ) : ℕ → ℕ → Option ℕ
  | _start, 0 => none
  | start, fuel+1 =>
      if t ≤ (start : ℝ) / Nr + 1 / Nr then some start
      else firstLe t Nr (start + 1) fuel

/-- `squaredlerp(points, t)` from `color_scale.py`:
componentwise `sqrt((1-delta)*points[i]**2 + delta*points[i+1]**2)` on the
subinterval found by the linspace loop.  `N = len(points) - 1`; `N == 0`
returns `points[0]` directly.  When the loop never breaks the Python code
falls through to `return p` with `p` unbound (an `UnboundLocalError`), and
`points[i+1]` past the end would be an `IndexError`; both are modelled as
`.error`.  The internal `delta < 0` ValueError check is embedded as written. -/
def squaredlerp (points : List V3) (t : ℝ) : Except String V3 :=
  let N : ℤ := (points.length : ℤ) - 1
  if N = 0 then .ok points.headI
  else
    match firstLe t ((points.length : ℝ) - 1) 0 points.length with
    | Option.none => .error "UnboundLocalError: local variable p referenced before assignment"
    | Option.some i =>
      let Nr : ℝ := (points.length : ℝ) - 1
      let a : ℝ := (i : ℝ) / Nr
      let delta : ℝ := npClip ((t - a) / (1 / Nr)) 0 1
      if delta < 0 then .error "ValueError: t is out of range"
      else if i + 1 < points.length then
        .ok (fun c =>
          Real.sqrt ((1 - delta) * (points.getD i 0 c) ^ 2
                     + delta * (points.getD (i + 1) 0 c) ^ 2))
      else .error "IndexError: index out of bounds"

/-- The `COMMON_SCALES` dictionary of `color_scale.py` (lookup by name). -/
def COMMON_SCALES (s : String) : Option (List V3) :=
  if s = "viridis" then
    some [![51/255, 0, 99/255], ![5/255, 99/255, 88/255],
          ![45/255, 173/255, 64/255], ![255/255, 230/255, 0]]
  else if s = "magma" then
    some [![1/255, 0, 4/255], ![57/255, 1/255, 102/255],
          ![225/255, 59/255, 80/255], ![249/255, 252/255, 173/255]]
  else if s = "heat" then
    some [![255/255, 255/255, 255/255], ![255/255, 236/255, 10/255],
          ![251/255, 109/255, 8/255], ![252/255, 0, 5/255]]
  else if s = "rainbow" then
    some [![1, 0, 0], ![1, 1, 0], ![0, 1, 0], ![0, 1, 1],
          ![0, 0, 1], ![1, 0, 1], ![1, 0, 0]]
  else if s = "turbo" then
    some [![48/255, 18/255, 59/255], ![70/255, 102/255, 221/255],
          ![27/255, 229/255, 181/255], ![166/255, 250/255, 59/255],
          ![220/255, 225/255, 55/255], ![250/255, 124/255, 31/255],
          ![206/255, 45/255, 4/255], ![122/255, 12/255, 2/255]]
  else if s = "mako" then
    some [![218/255, 243/255, 225/255], ![84/255, 202/255, 173/255],
          ![53/255, 121/255, 162/255], ![62/255, 51/255, 103/255],
          ![13/255, 4/255, 8/255]]
  else none

/-- The `colors` argument of `ColorScale.__init__`: a scale name or a list. -/
inductive ColorsArg where
  | name : String → ColorsArg
  | list : List V3 → ColorsArg

/-- The state a constructed `ColorScale` carries (its fields after `__init__`). -/
structure ColorScale where
  min_value : ℝ
  max_value : ℝ
  colors : List V3

/-- `ColorScale.__init__(min_value, max_value, invert, colors)`: resolves a
string through `COMMON_SCALES` (a missing name is a Python `KeyError`),
reverses the list when `invert` is set. -/
def mkColorScale (min_value max_value : ℝ) (invert : Bool) (colors : ColorsArg) :
    Except String ColorScale :=
  match colors with
  | .name s =>
    match COMMON_SCALES s with
    | Option.some l => .ok ⟨min_value, max_value, if invert then l.reverse else l⟩
    | Option.none => .error "KeyError"
  | .list l => .ok ⟨min_value, max_value, if invert then l.reverse else l⟩

/-- `colorsys.rgb_to_hsv` from the Python standard library (a direct formula;
`h % 1.0` on floats is the fractional part; real division is total here
where CPython would raise `ZeroDivisionError` for `maxc = 0`, a case no
claim touches). -/
def rgb_to_hsv (r g b : ℝ) : ℝ × ℝ × ℝ :=
  let maxc := max r (max g b)
  let minc := min r (min g b)
  let rangec := maxc - minc
  let v := maxc
  if minc = maxc then (0, 0, v)
  else
    let s := rangec / maxc
    let rc := (maxc - r) / rangec
    let gc := (maxc - g) / rangec
    let bc := (maxc - b) / rangec
    let h := if r = maxc then bc - gc
             else if g = maxc then 2 + rc - bc
             else 4 + gc - rc
    (Int.fract (h / 6), s, v)

/-- Python `int()` truncation toward zero. -/
def pyInt (x : ℝ) : ℤ := if 0 ≤ x then ⌊x⌋ else -⌊-x⌋

/-- Two-hex-digit rendering of one channel, modelling the format spec `02x`
for the values `0 ≤ n < 256` that arise from colors in `[0, 1]`. -/
def hex2 (n : ℤ) : String :=
  let ds := Nat.toDigits 16 n.toNat
  if ds.length < 2 then String.mk ('0' :: ds) else String.mk ds

/-- The hex string built by `ColorScale.__as_color_type` for `ret_type='hex'`. -/
def hexFormat (r g b : ℝ) : String :=
  "#" ++ hex2 (pyInt (r * 255)) ++ hex2 (pyInt (g * 255)) ++ hex2 (pyInt (b * 255))

/-- Return value of `ColorScale.get_color`, tagged by requested type. -/
inductive ColorRet where
  | rgb : V3 → ColorRet
  | hsv : ℝ → ℝ → ℝ → ColorRet
  | hex : String → ColorRet
deriving Inhabited

/-- `ColorScale.__as_color_type(rgb_color, ret_type)`: dispatch on the
`ret_type` string; an unrecognized string raises `ValueError`. -/
def as_color_type (c : V3) (ret_type : String) : Except String ColorRet :=
  let r := c 0
  let g := c 1
  let b := c 2
  if ret_type = "rgb" then .ok (.rgb c)
  else if ret_type = "hsv" then
    let t := rgb_to_hsv r g b
    .ok (.hsv t.1 t.2.1 t.2.2)
  else if ret_type = "hex" then .ok (.hex (hexFormat r g b))
  else .error "ValueError: ret_type must be one of rgb, hsv, hex"

/-- `ColorScale.get_color(value, ret_type)`: clamp `value` into
`[min_value, max_value]`, normalize (CPython raises `ZeroDivisionError`
when `max_value - min_value` is zero), interpolate with `squaredlerp`,
convert with `__as_color_type`. -/
def get_color (cs : ColorScale) (value : ℝ) (ret_type : String) :
    Except String ColorRet :=
  let v1 := max (min value cs.max_value) cs.min_value
  if cs.max_value - cs.min_value = 0 then
    .error "ZeroDivisionError: float division by zero"
  else
    let v2 := (v1 - cs.min_value) / (cs.max_value - cs.min_value)
    match squaredlerp cs.colors v2 with
    | .error e => .error e
    | .ok c => as_color_type c ret_type

/-- A numpy quaternion (`quaternion.quaternion`): fields `w, x, y, z`. -/
@[ext]
structure Quat where
  w : ℝ
  x : ℝ
  y : ℝ
  z : ℝ

instance : Neg Quat := ⟨fun q => ⟨-q.w, -q.x, -q.y, -q.z⟩⟩

/-- The quaternion represents a rotation exactly: unit norm. -/
def unitQ (q : Quat) : Prop := q.w ^ 2 + q.x ^ 2 + q.y ^ 2 + q.z ^ 2 = 1

/-- `numpy.arctan2(y, x)` (the standard two-argument arctangent). -/
def atan2 (y x : ℝ) : ℝ :=
  if 0 < x then Real.arctan (y / x)
  else if x < 0 then
    (if 0 ≤ y then Real.arctan (y / x) + π else Real.arctan (y / x) - π)
  else
    (if 0 < y then π / 2 else if y < 0 then -(π / 2) else 0)

/-- The rotation matrix of a unit quaternion (the standard homogeneous
quadratic formula; this is what `quat.as_rotation_matrix` computes for a
normalized quaternion, and what `mathutils.Quaternion.to_matrix` produces). -/
def rotMat3 (q : Quat) : M3 :=
  !![1 - 2*(q.y^2 + q.z^2), 2*(q.x*q.y - q.z*q.w), 2*(q.x*q.z + q.y*q.w);
     2*(q.x*q.y + q.z*q.w), 1 - 2*(q.x^2 + q.z^2), 2*(q.y*q.z - q.x*q.w);
     2*(q.x*q.z - q.y*q.w), 2*(q.y*q.z + q.x*q.w), 1 - 2*(q.x^2 + q.y^2)]

/-- `quat.as_rotation_matrix(q)`: the same formula with every quadratic term
divided by the squared magnitude `n = q.norm()`, as numpy-quaternion writes it. -/
def as_rotation_matrix (q : Quat) : M3 :=
  let n := q.w ^ 2 + q.x ^ 2 + q.y ^ 2 + q.z ^ 2
  !![1 - 2*(q.y^2 + q.z^2)/n, 2*(q.x*q.y - q.z*q.w)/n, 2*(q.x*q.z + q.y*q.w)/n;
     2*(q.x*q.y + q.z*q.w)/n, 1 - 2*(q.x^2 + q.z^2)/n, 2*(q.y*q.z - q.x*q.w)/n;
     2*(q.x*q.z - q.y*q.w)/n, 2*(q.y*q.z + q.x*q.w)/n, 1 - 2*(q.x^2 + q.y^2)/n]

/-- `quat.from_rotation_matrix(m)`.  The library computes this with an
eigenvector solver (Bar-Itzhack), so it is modelled by its documented
contract: it returns a unit quaternion whose rotation matrix is `m`
(sign unspecified), when such a quaternion exists. -/
def from_rotation_matrix (m : M3) : Quat :=
  if h : ∃ p, unitQ p ∧ rotMat3 p = m then h.choose else ⟨0, 0, 0, 0⟩

/-- Squared magnitude of the vector part. -/
def vnormSq (q : Quat) : ℝ := q.x ^ 2 + q.y ^ 2 + q.z ^ 2

/-- Euclidean norm of a 3-vector (`np.linalg.norm`). -/
def norm3 (v : V3) : ℝ := Real.sqrt (v 0 ^ 2 + v 1 ^ 2 + v 2 ^ 2)

/-- `quat.as_rotation_vector(q) = 2 * log(q)` (vector part): direction is the
vector part of `q`, length `2 * atan2(|vec|, w)`; the zero-vector-part case
(where the library's formula degenerates) returns the zero vector. -/
def as_rotation_vector (q : Quat) : V3 :=
  let r := Real.sqrt (vnormSq q)
  if r = 0 then 0
  else fun j => 2 * atan2 r q.w / r * (![q.x, q.y, q.z] j)

/-- `quat.from_rotation_vector(v) = exp(quaternion(0, v/2))`:
`(cos(|v|/2), sin(|v|/2) * v/|v|)`, the identity quaternion at `v = 0`
(the library's `exp` special-cases a zero vector part). -/
def from_rotation_vector (v : V3) : Quat :=
  let θ := norm3 v
  if θ = 0 then ⟨1, 0, 0, 0⟩
  else ⟨Real.cos (θ / 2),
        Real.sin (θ / 2) * v 0 / θ,
        Real.sin (θ / 2) * v 1 / θ,
        Real.sin (θ / 2) * v 2 / θ⟩

/-- `quat.from_float_array`: builds a quaternion from `[w, x, y, z]`; any
other last-dimension length is a library error. -/
def from_float_array (l : List ℝ) : Except String Quat :=
  match l with
  | [w, x, y, z] => .ok ⟨w, x, y, z⟩
  | _ => .error "ValueError: invalid shape for from_float_array"

/-- `quat.from_euler_angles(alpha, beta, gamma)` for ZYZ Euler angles:
`exp(alpha*z/2) * exp(beta*y/2) * exp(gamma*z/2)` expanded. -/
def from_euler_angles (a b g : ℝ) : Quat :=
  ⟨Real.cos (b/2) * Real.cos ((a+g)/2),
   -(Real.sin (b/2) * Real.sin ((a-g)/2)),
   Real.sin (b/2) * Real.cos ((a-g)/2),
   Real.cos (b/2) * Real.sin ((a+g)/2)⟩

/-- `quat.as_euler_angles(q)`: `[atan2(z,w)+atan2(-x,y),
2*arccos(sqrt((w^2+z^2)/n)), atan2(z,w)-atan2(-x,y)]` with `n` the squared
magnitude, as numpy-quaternion computes it. -/
def as_euler_angles (q : Quat) : List ℝ :=
  let n := q.w ^ 2 + q.x ^ 2 + q.y ^ 2 + q.z ^ 2
  [atan2 q.z q.w + atan2 (-q.x) q.y,
   2 * Real.arccos (Real.sqrt ((q.w ^ 2 + q.z ^ 2) / n)),
   atan2 q.z q.w - atan2 (-q.x) q.y]

/-- A Python value passed as the `rot` argument: a 1-D array(-like), a 2-D
array(-like) given by rows, or a length-2 tuple `(axis, angle)`. -/
inductive NpArr where
  | vec : List ℝ → NpArr
  | mat : List (List ℝ) → NpArr
  | tup2 : List ℝ → ℝ → NpArr

/-- Python `len` of the `rot` argument. -/
def npLen : NpArr → ℕ
  | .vec l => l.length
  | .mat rows => rows.length
  | .tup2 _ _ => 2

/-- Shape test: a well-formed 3x3 nested list. -/
def isMat3 (rows : List (List ℝ)) : Bool :=
  rows.length = 3 && rows.all (fun r => r.length = 3)

/-- Shape test: a well-formed 4x4 nested list. -/
def isMat4 (rows : List (List ℝ)) : Bool :=
  rows.length = 4 && rows.all (fun r => r.length = 4)

/-- Row-major nested list to 3x3 matrix. -/
def m3ofRows (rows : List (List ℝ)) : M3 :=
  Matrix.of fun i j => (rows.getD i []).getD j 0

/-- `rot_np[0:3, 0:3]` on a nested-list 4x4 matrix. -/
def topLeft3 (rows : List (List ℝ)) : List (List ℝ) :=
  (rows.take 3).map (fun r => r.take 3)

/-- First three entries of a 1-D list as a vector. -/
def v3ofList (l : List ℝ) : V3 := ![l.getD 0 0, l.getD 1 0, l.getD 2 0]

/-- A `V3` as a Python list. -/
def listOfV3 (v : V3) : List ℝ := [v 0, v 1, v 2]

/-- The observable effect of the `len(rot) == 2` branch of `to_quaternion`:
`quat.from_rotation_vector(np.asarray(rot[0])*rot[1])` is evaluated (so a
shape the library rejects raises) but its result is never bound to `q`. -/
def len2Effect : NpArr → Except String Unit
  | .tup2 axis _ =>
      if axis.length = 3 then .ok ()
      else .error "ValueError: invalid shape for from_rotation_vector"
  | .vec _ => .error "ValueError: invalid shape for from_rotation_vector"
  | .mat rows =>
      if rows.all (fun r => r.length = 3) then .ok ()
      else .error "ValueError: invalid shape for from_rotation_vector"

/-- Return value of `to_quaternion`: a `(q.x, q.y, q.z, q.w)` tuple, a
quaternion object, or Python `None` (the implicit fall-through return). -/
inductive ToQuatRet where
  | tup : ℝ → ℝ → ℝ → ℝ → ToQuatRet
  | quat : Quat → ToQuatRet
  | pynone : ToQuatRet

/-- `to_quaternion(rot, type)` from `geometry.py`, exactly as written: the
`len(rot) == 2` branch computes `from_rotation_vector` but never assigns `q`
(so the later `return q...` is an `UnboundLocalError`); the shape dispatch
covers `(3,3)`, `(4,4)`, `(3,)`, `(4,)`; an unrecognized `type` string falls
off the end of the function and returns `None`. -/
def to_quaternion (rot : NpArr) (type : String) : Except String ToQuatRet :=
  let qres : Except String (Option Quat) :=
    if npLen rot = 2 then
      match len2Effect rot with
      | .error e => .error e
      | .ok _ => .ok Option.none
    else
      match rot with
      | .vec l =>
        if l.length = 3 then .ok (some (from_rotation_vector (v3ofList l)))
        else if l.length = 4 then
          match from_float_array l with
          | .ok q => .ok (some q)
          | .error e => .error e
        else .error "ValueError: Unknown rotation type"
      | .mat rows =>
        if isMat3 rows then .ok (some (from_rotation_matrix (m3ofRows rows)))
        else if isMat4 rows then
          .ok (some (from_rotation_matrix (m3ofRows (topLeft3 rows))))
        else .error "ValueError: Unknown rotation type"
      | .tup2 _ _ => .error "ValueError: Unknown rotation type"
  match qres with
  | .error e => .error e
  | .ok qo =>
    if type = "tuple" then
      match qo with
      | some q => .ok (.tup q.x q.y q.z q.w)
      | Option.none => .error "UnboundLocalError: local variable q referenced before assignment"
    else if type = "quat" then
      match qo with
      | some q => .ok (.quat q)
      | Option.none => .error "UnboundLocalError: local variable q referenced before assignment"
    else .ok .pynone

/-- `as_rotation_matrix` as the nested list `to_quaternion` receives. -/
def as_rotation_matrix_rows (q : Quat) : List (List ℝ) :=
  [[as_rotation_matrix q 0 0, as_rotation_matrix q 0 1, as_rotation_matrix q 0 2],
   [as_rotation_matrix q 1 0, as_rotation_matrix q 1 1, as_rotation_matrix q 1 2],
   [as_rotation_matrix q 2 0, as_rotation_matrix q 2 1, as_rotation_matrix q 2 2]]

/-- The `np.identity(4)` with `rigid_mat[0:3, 0:3] = rot_mat` built by the
`'matrix'` branch of `as_rot_type`, as nested lists. -/
def rigid_mat_rows (q : Quat) : List (List ℝ) :=
  [[as_rotation_matrix q 0 0, as_rotation_matrix q 0 1, as_rotation_matrix q 0 2, 0],
   [as_rotation_matrix q 1 0, as_rotation_matrix q 1 1, as_rotation_matrix q 1 2, 0],
   [as_rotation_matrix q 2 0, as_rotation_matrix q 2 1, as_rotation_matrix q 2 2, 0],
   [0, 0, 0, 1]]

/-- `as_rot_type(q, rot_type)` from `geometry.py`: converts a quaternion to
the representation named by `rot_type`; an unrecognized name raises
`ValueError`. -/
def as_rot_type (q : Quat) (rot_type : String) : Except String NpArr :=
  if rot_type = "quaternion" then .ok (.vec [q.w, q.x, q.y, q.z])
  else if rot_type = "euler_ZYZ" then .ok (.vec (as_euler_angles q))
  else if rot_type = "rot_mat" then .ok (.mat (as_rotation_matrix_rows q))
  else if rot_type = "rot_vec" then .ok (.vec (listOfV3 (as_rotation_vector q)))
  else if rot_type = "axis_angle" then
    let rot_vec := as_rotation_vector q
    let angle := norm3 rot_vec
    .ok (.tup2 [rot_vec 0 / angle, rot_vec 1 / angle, rot_vec 2 / angle] angle)
  else if rot_type = "matrix" then .ok (.mat (rigid_mat_rows q))
  else .error "ValueError: rot_type must be one of ACCEPTED_ROT_TYPES"

/-- The composite the round-trip claim is about:
`to_quaternion(as_rot_type(q, rot_type), type='quat')`. -/
def roundTrip (q : Quat) (rot_type : String) : Except String ToQuatRet :=
  match as_rot_type q rot_type with
  | .error e => .error e
  | .ok arr => to_quaternion arr "quat"

/-- A Blender object as far as this code touches it: its `matrix_world`
plus all its remaining attributes, opaquely. -/
structure BObject (A : Type) where
  matrix_world : M4
  other : A

/-- `ROTATION_TYPES` from `movement.py`. -/
def ROTATION_TYPES : List String := ["quaternion", "euler_ZYZ", "rot_mat", "rot_vec"]

/-- `ACCEPTED_ROT_TYPES` from `geometry.py`. -/
def ACCEPTED_ROT_TYPES : List String :=
  ["quaternion", "euler_ZYZ", "rot_vector", "axis_angle", "rot_mat", "matrix"]

/-- A 3x3 matrix as the top-left block of a 4x4 homogeneous matrix
(`mathutils` `to_4x4()`). -/
def aff (A : M3) : M4 :=
  !![A 0 0, A 0 1, A 0 2, 0;
     A 1 0, A 1 1, A 1 2, 0;
     A 2 0, A 2 1, A 2 2, 0;
     0, 0, 0, 1]

/-- `mathutils.Matrix.Translation(t)`. -/
def trMat (t : V3) : M4 :=
  !![1, 0, 0, t 0;
     0, 1, 0, t 1;
     0, 0, 1, t 2;
     0, 0, 0, 1]

/-- The 4x4 rotation matrix of a quaternion (`to_matrix().to_4x4()`). -/
def rotMat4 (q : Quat) : M4 := aff (rotMat3 q)

/-- `mathutils.Matrix.Rotation(angle, 4, axis)`, modelled by its documented
semantics for a unit axis: the rotation matrix of the axis-angle quaternion
`(cos(angle/2), sin(angle/2) * axis)`. -/
def MatrixRotation (angle : ℝ) (axis : V3) : M4 :=
  rotMat4 ⟨Real.cos (angle / 2),
           Real.sin (angle / 2) * axis 0,
           Real.sin (angle / 2) * axis 1,
           Real.sin (angle / 2) * axis 2⟩

/-- `mathutils.Matrix.Scale(factor, 4, axis)` for a unit axis: scaling by
`factor` along `axis`, `I + (factor - 1) * axis axisᵀ` homogeneously. -/
def MatrixScale (factor : ℝ) (axis : V3) : M4 :=
  aff (Matrix.of fun i j =>
    (if i = j then (1:ℝ) else 0) + (factor - 1) * axis i * axis j)

/-- The `x_scaling @ y_scaling @ z_scaling` chain both movement functions
build from a scale triple. -/
def scaleChain (s : V3) : M4 :=
  MatrixScale (s 0) ![1, 0, 0] * MatrixScale (s 1) ![0, 1, 0] * MatrixScale (s 2) ![0, 0, 1]

/-- Diagonal 3x3 matrix of a scale triple. -/
def diag3 (s : V3) : M3 :=
  !![s 0, 0, 0;
     0, s 1, 0;
     0, 0, s 2]

/-- Homogeneous matrix with rotation-scale block `B` and translation `t`
(the shape every `loc @ rot @ scale` product below has). -/
def trs (t : V3) (B : M3) : M4 :=
  !![B 0 0, B 0 1, B 0 2, t 0;
     B 1 0, B 1 1, B 1 2, t 1;
     B 2 0, B 2 1, B 2 2, t 2;
     0, 0, 0, 1]

/-- `mathutils.Matrix.decompose()`, modelled by its documented contract via
choice: some translation/unit-quaternion (with non-negative `w`)/positive-
scale triple recomposing to the matrix, a default triple when the matrix is
not of that form. -/
def decompose (m : M4) : V3 × Quat × V3 :=
  if h : ∃ p : V3 × Quat × V3,
      unitQ p.2.1 ∧ 0 ≤ p.2.1.w ∧ (∀ i, 0 < p.2.2 i) ∧
      m = trs p.1 (rotMat3 p.2.1 * diag3 p.2.2) then
    h.choose
  else (0, ⟨1, 0, 0, 0⟩, fun _ => 1)

/-- The rotation-argument conversion shared by `rigid_movement` and
`set_world_pose`: dispatch on `rot_type` into the numpy-quaternion
constructors, `ValueError` on an unrecognized name. -/
def movementToQuat (rot_arr : NpArr) (rot_type : String) : Except String Quat :=
  if rot_type = "quaternion" then
    match rot_arr with
    | .vec l => from_float_array l
    | _ => .error "ValueError: invalid shape for from_float_array"
  else if rot_type = "euler_ZYZ" then
    match rot_arr with
    | .vec l =>
      if l.length = 3 then .ok (from_euler_angles (l.getD 0 0) (l.getD 1 0) (l.getD 2 0))
      else .error "ValueError: invalid shape for from_euler_angles"
    | _ => .error "ValueError: invalid shape for from_euler_angles"
  else if rot_type = "rot_mat" then
    match rot_arr with
    | .mat rows =>
      if isMat3 rows then .ok (from_rotation_matrix (m3ofRows rows))
      else .error "ValueError: invalid shape for from_rotation_matrix"
    | _ => .error "ValueError: invalid shape for from_rotation_matrix"
  else if rot_type = "rot_vec" then
    match rot_arr with
    | .vec l =>
      if l.length = 3 then .ok (from_rotation_vector (v3ofList l))
      else .error "ValueError: invalid shape for from_rotation_vector"
    | _ => .error "ValueError: invalid shape for from_rotation_vector"
  else .error "ValueError: rot_type must be one of: quaternion, euler_ZYZ, rot_mat, rot_vec"

/-- The `q_rot -> axis_angle -> (rot_angle, rot_axis) -> Matrix.Rotation`
pipeline both movement functions run on a converted rotation (real division
is total where numpy would produce `nan` for the zero rotation vector). -/
def movementRotMat (q_rot : Quat) : M4 :=
  let axis_angle := as_rotation_vector q_rot
  let rot_angle := norm3 axis_angle
  let rot_axis : V3 := fun i => axis_angle i / rot_angle
  MatrixRotation rot_angle rot_axis

/-- `rigid_movement(obj, rotation, translation, rot_type)` from
`movement.py`: composes the given incremental rotation/translation with the
object's decomposed world matrix and assigns `obj.matrix_world`; a raised
exception leaves the object untouched. -/
def rigid_movement {A : Type} (obj : BObject A) ( rotation : Option NpArr)
    (translation : Option V3) (rot_type : String) :
    Except String Unit × BObject A :=
  let rotRes : Except String M4 :=
    match rotation with
    | Option.none => .ok 1
    | Option.some r =>
      match movementToQuat r rot_type with
      | .error e => .error e
      | .ok q_rot => .ok (movementRotMat q_rot)
  match rotRes with
  | .error e => (.error e, obj)
  | .ok rot_mat =>
    let loc_mat : M4 :=
      match translation with
      | Option.some tr => trMat tr
      | Option.none => 1
    let dec := decompose obj.matrix_world
    let orig_loc_mat := trMat dec.1
    let orig_rot_mat := rotMat4 dec.2.1
    let orig_scale_mat := scaleChain dec.2.2
    (.ok (), { obj with
      matrix_world := (loc_mat * orig_loc_mat) * (rot_mat * orig_rot_mat) * orig_scale_mat })

/-- `set_world_pose(obj, rotation, translation, rot_type, scale)` from
`movement.py`: decomposes `obj.matrix_world`, replaces each component whose
argument was given, reassembles `loc @ rot @ scale`, and assigns
`obj.matrix_world`; a raised exception leaves the object untouched. -/
def set_world_pose {A : Type} (obj : BObject A) ( rotation : Option NpArr)
    (translation : Option V3) (rot_type : String) (scale : Option V3) :
    Except String Unit × BObject A :=
  let dec := decompose obj.matrix_world
  let rotRes : Except String M4 :=
    match rotation with
    | Option.none => .ok (rotMat4 dec.2.1)
    | Option.some r =>
      match movementToQuat r rot_type with
      | .error e => .error e
      | .ok q_rot => .ok (movementRotMat q_rot)
  match rotRes with
  | .error e => (.error e, obj)
  | .ok rot_mat =>
    let loc_mat : M4 :=
      match translation with
      | Option.some tr => trMat tr
      | Option.none => trMat dec.1
    let scale_mat : M4 :=
      match scale with
      | Option.some s => scaleChain s
      | Option.none => scaleChain dec.2.2
    (.ok (), { obj with matrix_world := loc_mat * rot_mat * scale_mat })

theorem firstLe_spec (t Nr : ℝ) :
    ∀ (fuel start i : ℕ), firstLe t Nr start fuel = some i →
      start ≤ i ∧ i < start + fuel ∧ (t ≤ (i : ℝ) / Nr + 1 / Nr) ∧
      ∀ j, start ≤ j → j < i → ¬ (t ≤ (j : ℝ) / Nr + 1 / Nr) := by
  intro fuel
  induction fuel with
  | zero => intro start i h; simp [firstLe] at h
  | succ f ih =>
    intro start i h
    rw [firstLe] at h
    split_ifs at h with hp
    · cases h
      exact ⟨le_refl _, by omega, hp, fun j hj1 hj2 => by omega⟩
    · obtain ⟨h1, h2, h3, h4⟩ := ih (start + 1) i h
      refine ⟨by omega, by omega, h3, ?_⟩
      intro j hj1 hj2
      rcases eq_or_lt_of_le hj1 with hj | hj
      · exact hj ▸ hp
      · exact h4 j (by omega) hj2

theorem firstLe_isSome (t Nr : ℝ) :
    ∀ (fuel start i : ℕ), start ≤ i → i < start + fuel →
      (t ≤ (i : ℝ) / Nr + 1 / Nr) → (firstLe t Nr start fuel).isSome := by
  intro fuel
  induction fuel with
  | zero => intro start i h1 h2; omega
  | succ f ih =>
    intro start i h1 h2 hp
    rw [firstLe]
    split_ifs with h
    · rfl
    · rcases eq_or_lt_of_le h1 with hj | hj
      · exact absurd (hj ▸ hp) h
      · exact ih (start + 1) i hj (by omega) hp

theorem squaredlerp_ok (points : List V3) (t : ℝ)
    (hne : points ≠ []) (h0 : 0 ≤ t) (h1 : t ≤ 1) :
    ∃ c, squaredlerp points t = .ok c := by
  match points, hne with
  | [p], _ =>
    exact ⟨p, by simp [squaredlerp]⟩
  | p :: p2 :: ps, _ =>
    set L : ℕ := (p :: p2 :: ps).length with hL
    have hLval : L = ps.length + 2 := by simp [hL]
    have hNr : (0 : ℝ) < (L : ℝ) - 1 := by
      have : (1 : ℝ) < (L : ℝ) := by exact_mod_cast (by omega : 1 < L)
      linarith
    -- the index L-2 satisfies the loop predicate because t ≤ 1 = (L-1)/(L-1)
    have hpred : t ≤ ((L - 2 : ℕ) : ℝ) / ((L : ℝ) - 1) + 1 / ((L : ℝ) - 1) := by
      have hcast : ((L - 2 : ℕ) : ℝ) = (L : ℝ) - 2 := by
        have : (2 : ℕ) ≤ L := by omega
        push_cast [Nat.cast_sub this]
        ring
      have heq : ((L - 2 : ℕ) : ℝ) / ((L : ℝ) - 1) + 1 / ((L : ℝ) - 1) = 1 := by
        rw [hcast]
        field_simp
        ring
      rw [heq]; exact h1
    have hsome := firstLe_isSome t ((L : ℝ) - 1) L 0 (L - 2) (Nat.zero_le _)
      (by omega) hpred
    obtain ⟨i, hi⟩ := Option.isSome_iff_exists.mp hsome
    obtain ⟨-, -, hip, hleast⟩ := firstLe_spec t ((L : ℝ) - 1) L 0 i hi
    have hile : i ≤ L - 2 := by
      by_contra hcon
      push_neg at hcon
      exact hleast (L - 2) (Nat.zero_le _) hcon hpred
    have hN0 : ¬ ((L : ℤ) - 1 = 0) := by omega
    have hdelta : ¬ (npClip ((t - (i : ℝ) / ((L : ℝ) - 1)) / (1 / ((L : ℝ) - 1))) 0 1 < 0) := by
      have : (0 : ℝ) ≤ npClip ((t - (i : ℝ) / ((L : ℝ) - 1)) / (1 / ((L : ℝ) - 1))) 0 1 :=
        le_min zero_le_one (le_max_left 0 _)
      linarith
    have hidx : i + 1 < L := by omega
    apply Exists.intro
    rw [squaredlerp]
    rw [if_neg hN0]
    rw [← hL, hi]
    simp only [if_neg hdelta, if_pos hidx]
    rfl

/-- C8: `squaredlerp` is total on its intended domain: for every non-empty
list of points and every `t` with `0 ≤ t ≤ 1` the subinterval loop finds an
interval and the function returns an interpolated point; in particular
neither the internal `ValueError` branch (`delta < 0`, unreachable after the
clip) nor any other error branch is reached. -/
theorem C8_squaredlerp_total (points : List V3) (t : ℝ)
    (hne : points ≠ []) (h0 : 0 ≤ t) (h1 : t ≤ 1) :
    ∃ c, squaredlerp points t = .ok c :=
  squaredlerp_ok points t hne h0 h1

theorem firstLe_eq_some (t Nr : ℝ) (len i : ℕ) (hi : i < len)
    (hp : t ≤ (i : ℝ) / Nr + 1 / Nr)
    (hl : ∀ j : ℕ, j < i → ¬ t ≤ (j : ℝ) / Nr + 1 / Nr) :
    firstLe t Nr 0 len = some i := by
  have hsome := firstLe_isSome t Nr len 0 i (Nat.zero_le _) (by omega) hp
  obtain ⟨i', hi'⟩ := Option.isSome_iff_exists.mp hsome
  obtain ⟨-, -, hip', hleast'⟩ := firstLe_spec t Nr len 0 i' hi'
  have : i' = i := by
    rcases lt_trichotomy i' i with h | h | h
    · exact absurd hip' (hl i' h)
    · exact h
    · exact absurd hp (hleast' i (Nat.zero_le _) h)
  rw [hi', this]

theorem squaredlerp_eval (points : List V3) (t : ℝ) (i : ℕ)
    (hN : points.length ≠ 1)
    (hfirst : firstLe t ((points.length : ℝ) - 1) 0 points.length = some i)
    (hidx : i + 1 < points.length)
    (hd : ¬ (npClip ((t - (i : ℝ) / ((points.length : ℝ) - 1)) /
              (1 / ((points.length : ℝ) - 1))) 0 1 < 0)) :
    squaredlerp points t = .ok (fun c =>
      Real.sqrt ((1 - npClip ((t - (i : ℝ) / ((points.length : ℝ) - 1)) /
                    (1 / ((points.length : ℝ) - 1))) 0 1) * (points.getD i 0 c) ^ 2
        + npClip ((t - (i : ℝ) / ((points.length : ℝ) - 1)) /
                    (1 / ((points.length : ℝ) - 1))) 0 1 * (points.getD (i + 1) 0 c) ^ 2)) := by
  have hN0 : ¬ ((points.length : ℤ) - 1 = 0) := by omega
  rw [squaredlerp, if_neg hN0, hfirst]
  simp only [if_neg hd, if_pos hidx]

theorem npClip_eq_self (x : ℝ) (h0 : 0 ≤ x) (h1 : x ≤ 1) : npClip x 0 1 = x := by
  rw [npClip, max_eq_right h0, min_eq_right h1]

theorem div_one_div_eq (a b : ℝ) : a / (1 / b) = a * b := by
  rw [div_div_eq_mul_div, div_one]

theorem get_color_rgb_eq (minv maxv : ℝ) (colors : List V3) (v : ℝ)
    (hsub : ¬ (maxv - minv = 0)) :
    get_color ⟨minv, maxv, colors⟩ v "rgb" =
      (squaredlerp colors ((max (min v maxv) minv - minv) / (maxv - minv))).map
        ColorRet.rgb := by
  rw [get_color]
  simp only [if_neg hsub]
  rcases h : squaredlerp colors ((max (min v maxv) minv - minv) / (maxv - minv)) with e | c
  · simp [h, Except.map]
  · simp [h, Except.map, as_color_type]

theorem mkColorScale_list (minv maxv : ℝ) (colors : List V3) (cs : ColorScale)
    (hmk : mkColorScale minv maxv false (.list colors) = .ok cs) :
    cs = ⟨minv, maxv, colors⟩ := by
  simp [mkColorScale] at hmk
  exact hmk.symm

theorem squaredlerp_at_zero (points : List V3) (hne : points ≠ [])
    (hpos : ∀ c ∈ points, ∀ j, 0 ≤ c j) :
    squaredlerp points 0 = .ok points.headI := by
  match points, hne with
  | [p], _ => simp [squaredlerp]
  | p :: p2 :: ps, _ =>
    set L : ℕ := (p :: p2 :: ps).length with hL
    have hLval : L = ps.length + 2 := by simp [hL]
    have hNr : (0 : ℝ) < (L : ℝ) - 1 := by
      have : (1 : ℝ) < (L : ℝ) := by exact_mod_cast (by omega : 1 < L)
      linarith
    have hfirst : firstLe 0 ((L : ℝ) - 1) 0 L = some 0 := by
      apply firstLe_eq_some _ _ _ _ (by omega)
      · have h1 : (0 : ℝ) ≤ 1 / ((L : ℝ) - 1) := le_of_lt (by positivity)
        simpa using h1
      · intro j hj; omega
    have heval := squaredlerp_eval (p :: p2 :: ps) 0 0 (by omega) (by rw [← hL]; exact hfirst)
      (by omega)
      (by
        have : (0 : ℝ) ≤ npClip ((0 - (0 : ℕ) / ((L : ℝ) - 1)) / (1 / ((L : ℝ) - 1))) 0 1 :=
          le_min zero_le_one (le_max_left 0 _)
        rw [← hL]
        push_neg
        simpa using this)
    rw [← hL] at heval
    rw [heval]
    have hclip : npClip ((0 - (0 : ℕ) / ((L : ℝ) - 1)) / (1 / ((L : ℝ) - 1))) 0 1 = 0 := by
      norm_num [npClip]
    congr 1
    funext c
    rw [hclip]
    have hp0 : (0 : ℝ) ≤ (p :: p2 :: ps).getD 0 0 c := hpos p (by simp) c
    simp only [sub_zero, zero_mul, one_mul, add_zero]
    have : (p :: p2 :: ps).getD 0 0 c = (p :: p2 :: ps).headI c := by rfl
    rw [this] at hp0 ⊢
    exact Real.sqrt_sq hp0

theorem squaredlerp_at_one (points : List V3) (hne : points ≠ [])
    (hpos : ∀ c ∈ points, ∀ j, 0 ≤ c j) :
    squaredlerp points 1 = .ok (points.getLast hne) := by
  match points, hne with
  | [p], _ => simp [squaredlerp, List.getLast]
  | p :: p2 :: ps, hne =>
    set L : ℕ := (p :: p2 :: ps).length with hL
    have hLval : L = ps.length + 2 := by simp [hL]
    have hNr : (0 : ℝ) < (L : ℝ) - 1 := by
      have : (1 : ℝ) < (L : ℝ) := by exact_mod_cast (by omega : 1 < L)
      linarith
    have hNe : ((L : ℝ) - 1) ≠ 0 := ne_of_gt hNr
    have hfirst : firstLe 1 ((L : ℝ) - 1) 0 L = some (L - 2) := by
      apply firstLe_eq_some _ _ _ _ (by omega)
      · have hcast : ((L - 2 : ℕ) : ℝ) = (L : ℝ) - 2 := by
          have : (2 : ℕ) ≤ L := by omega
          push_cast [Nat.cast_sub this]; ring
        rw [hcast]
        have : ((L : ℝ) - 2) / ((L : ℝ) - 1) + 1 / ((L : ℝ) - 1) = 1 := by
          rw [div_add_div_same, div_eq_one_iff_eq hNe]; ring
        rw [this]
      · intro j hj
        have hjr : (j : ℝ) + 1 < (L : ℝ) - 1 := by
          have : (j : ℕ) + 1 < L - 1 := by omega
          have hc : ((j : ℕ) : ℝ) + 1 < ((L - 1 : ℕ) : ℝ) := by exact_mod_cast this
          have : ((L - 1 : ℕ) : ℝ) = (L : ℝ) - 1 := by
            have h1 : (1 : ℕ) ≤ L := by omega
            push_cast [Nat.cast_sub h1]; ring
          linarith [this ▸ hc]
        push_neg
        rw [div_add_div_same]
        rw [div_lt_one hNr]
        linarith
    have heval := squaredlerp_eval (p :: p2 :: ps) 1 (L - 2) (by omega)
      (by rw [← hL]; exact hfirst) (by omega)
      (by
        have : (0 : ℝ) ≤ npClip ((1 - ((L - 2 : ℕ) : ℝ) / ((L : ℝ) - 1)) / (1 / ((L : ℝ) - 1))) 0 1 :=
          le_min zero_le_one (le_max_left 0 _)
        rw [← hL]
        push_neg
        exact this)
    rw [← hL] at heval
    rw [heval]
    have hcast : ((L - 2 : ℕ) : ℝ) = (L : ℝ) - 2 := by
      have : (2 : ℕ) ≤ L := by omega
      push_cast [Nat.cast_sub this]; ring
    have hclip : npClip ((1 - ((L - 2 : ℕ) : ℝ) / ((L : ℝ) - 1)) / (1 / ((L : ℝ) - 1))) 0 1 = 1 := by
      rw [hcast]
      have harg : (1 - ((L : ℝ) - 2) / ((L : ℝ) - 1)) / (1 / ((L : ℝ) - 1)) = 1 := by
        rw [div_one_div_eq, sub_mul, div_mul_cancel₀ _ hNe, one_mul]; ring
      rw [harg, npClip]
      norm_num
    congr 1
    funext c
    rw [hclip]
    simp only [sub_self, zero_mul, one_mul, zero_add]
    have hmem : (p :: p2 :: ps).getD (L - 2 + 1) 0 = (p :: p2 :: ps).getLast hne := by
      have hidx : L - 2 + 1 < L := by omega
      rw [List.getD_eq_getElem _ _ (by omega : L - 2 + 1 < (p :: p2 :: ps).length)]
      rw [List.getLast_eq_getElem]
      congr 1
    rw [hmem]
    have hp : (0 : ℝ) ≤ (p :: p2 :: ps).getLast hne c :=
      hpos _ (List.getLast_mem hne) c
    exact Real.sqrt_sq hp

/-- C7: with `max_value > min_value`, `invert = False`, and componentwise
non-negative control colors, `get_color(v, 'rgb')` returns the first control
color for every `v ≤ min_value` and the last control color for every
`v ≥ max_value`. -/
theorem C7_get_color_clamps (minv maxv : ℝ) (colors : List V3) (cs : ColorScale)
    (hmk : mkColorScale minv maxv false (.list colors) = .ok cs)
    (hlt : minv < maxv) (hne : colors ≠ [])
    (hpos : ∀ c ∈ colors, ∀ j, 0 ≤ c j) :
    (∀ v, v ≤ minv → get_color cs v "rgb" = .ok (.rgb colors.headI)) ∧
    (∀ v, maxv ≤ v → get_color cs v "rgb" = .ok (.rgb (colors.getLast hne))) := by
  have hcs := mkColorScale_list minv maxv colors cs hmk
  subst hcs
  have hsub : ¬ (maxv - minv = 0) := sub_ne_zero.mpr (ne_of_gt hlt)
  constructor
  · intro v hv
    rw [get_color_rgb_eq minv maxv colors v hsub]
    have hclamp : max (min v maxv) minv = minv := by
      rw [min_eq_left (le_trans hv (le_of_lt hlt)), max_eq_right hv]
    rw [hclamp]
    rw [sub_self, zero_div]
    rw [squaredlerp_at_zero colors hne hpos]
    rfl
  · intro v hv
    rw [get_color_rgb_eq minv maxv colors v hsub]
    have hclamp : max (min v maxv) minv = maxv := by
      rw [min_eq_right hv, max_eq_left (le_of_lt hlt)]
    rw [hclamp]
    rw [div_self hsub]
    rw [squaredlerp_at_one colors hne hpos]
    rfl

/-- C7 witness: a two-color scale on `[0, 1]` evaluated below and above the
range returns the first and last control color. -/
theorem C7_get_color_clamps_witness :
    get_color ⟨0, 1, [![0, 0, 0], ![1, 1, 1]]⟩ (-1) "rgb" =
      .ok (.rgb ([![(0:ℝ), 0, 0], ![1, 1, 1]].headI)) ∧
    get_color ⟨0, 1, [![0, 0, 0], ![1, 1, 1]]⟩ 2 "rgb" =
      .ok (.rgb ([![(0:ℝ), 0, 0], ![1, 1, 1]].getLast (by simp))) := by
  have h := C7_get_color_clamps 0 1 [![0, 0, 0], ![1, 1, 1]] _ rfl (by norm_num)
    (by simp)
    (by
      intro c hc j
      fin_cases hc <;> fin_cases j <;> norm_num)
  exact ⟨h.1 (-1) (by norm_num), h.2 2 (by norm_num)⟩

/-- C2: for a `ColorScale` with `max_value > min_value`, `invert = False`,
at least two control colors, and `min_value ≤ v ≤ max_value`,
`get_color(v, 'rgb')` interpolates in squared RGB space: with
`t = (v - min)/(max - min)` and `i` any index of a subinterval
`[i/N, (i+1)/N]` containing `t`, it returns componentwise
`sqrt((1-d) * c_i^2 + d * c_{i+1}^2)` where `d = (t - i/N) * N`. -/
theorem C2_get_color_squaredlerp (minv maxv v : ℝ) (colors : List V3)
    (cs : ColorScale) (i : ℕ)
    (hmk : mkColorScale minv maxv false (.list colors) = .ok cs)
    (hlt : minv < maxv) (hlen : 2 ≤ colors.length)
    (hv1 : minv ≤ v) (hv2 : v ≤ maxv)
    (hi1 : (i : ℝ) / ((colors.length : ℝ) - 1) ≤ (v - minv) / (maxv - minv))
    (hi2 : (v - minv) / (maxv - minv) ≤ ((i : ℝ) + 1) / ((colors.length : ℝ) - 1))
    (hiN : i + 1 < colors.length) :
    get_color cs v "rgb" = .ok (.rgb (fun c =>
      Real.sqrt
        ((1 - ((v - minv) / (maxv - minv) - (i : ℝ) / ((colors.length : ℝ) - 1)) *
              ((colors.length : ℝ) - 1)) * (colors.getD i 0 c) ^ 2
         + ((v - minv) / (maxv - minv) - (i : ℝ) / ((colors.length : ℝ) - 1)) *
              ((colors.length : ℝ) - 1) * (colors.getD (i + 1) 0 c) ^ 2))) := by
  have hcs := mkColorScale_list minv maxv colors cs hmk
  subst hcs
  have hsub : ¬ (maxv - minv = 0) := sub_ne_zero.mpr (ne_of_gt hlt)
  have hsubpos : (0 : ℝ) < maxv - minv := sub_pos.mpr hlt
  set L : ℕ := colors.length with hL
  set Nr : ℝ := (L : ℝ) - 1 with hNrdef
  have hNr : (0 : ℝ) < Nr := by
    have : (1 : ℝ) < (L : ℝ) := by exact_mod_cast (by omega : 1 < L)
    rw [hNrdef]; linarith
  have hNe : Nr ≠ 0 := ne_of_gt hNr
  set t : ℝ := (v - minv) / (maxv - minv) with htdef
  have hclamp : max (min v maxv) minv = v := by
    rw [min_eq_left hv2, max_eq_left hv1]
  rw [get_color_rgb_eq minv maxv colors v hsub, hclamp, ← htdef]
  -- the loop predicate holds at i, so the search returns some least index
  have hpredi : t ≤ (i : ℝ) / Nr + 1 / Nr := by
    rw [div_add_div_same]; exact hi2
  have hsome := firstLe_isSome t Nr L 0 i (Nat.zero_le _) (by omega) hpredi
  obtain ⟨k, hk⟩ := Option.isSome_iff_exists.mp hsome
  obtain ⟨-, -, hkp, hkleast⟩ := firstLe_spec t Nr L 0 k hk
  have hki : k ≤ i := by
    by_contra hcon
    push_neg at hcon
    exact hkleast i (Nat.zero_le _) hcon hpredi
  have hkp' : t ≤ ((k : ℝ) + 1) / Nr := by
    rw [div_add_div_same] at hkp; exact hkp
  have hik : i ≤ k + 1 := by
    by_contra hcon
    push_neg at hcon
    have hcr : ((k : ℝ) + 1) + 1 ≤ (i : ℝ) := by exact_mod_cast hcon
    have hlt2 : ((k : ℝ) + 1) / Nr < (i : ℝ) / Nr :=
      (div_lt_div_iff_of_pos_right hNr).mpr (by linarith)
    linarith [hi1, hkp', hlt2]
  have hcase : k = i ∨ i = k + 1 := by omega
  rcases hcase with rfl | hcase
  · -- the loop found exactly the claimed subinterval
    have heval := squaredlerp_eval colors t k (by omega)
      (by rw [← hL, ← hNrdef]; exact hk) (by omega)
      (by
        have h : (0 : ℝ) ≤ npClip ((t - (k : ℝ) / Nr) / (1 / Nr)) 0 1 :=
          le_min zero_le_one (le_max_left 0 _)
        rw [← hL, ← hNrdef]
        push_neg
        exact h)
    rw [← hL, ← hNrdef] at heval
    rw [heval]
    have hd0 : (0 : ℝ) ≤ (t - (k : ℝ) / Nr) * Nr :=
      mul_nonneg (sub_nonneg.mpr hi1) (le_of_lt hNr)
    have hd1 : (t - (k : ℝ) / Nr) * Nr ≤ 1 := by
      have hstep : t - (k : ℝ) / Nr ≤ 1 / Nr := by linarith [hpredi]
      calc (t - (k : ℝ) / Nr) * Nr ≤ (1 / Nr) * Nr :=
              mul_le_mul_of_nonneg_right hstep (le_of_lt hNr)
        _ = 1 := by rw [one_div, inv_mul_cancel₀ hNe]
    have hclip : npClip ((t - (k : ℝ) / Nr) / (1 / Nr)) 0 1 = (t - (k : ℝ) / Nr) * Nr := by
      rw [div_one_div_eq]
      exact npClip_eq_self _ hd0 hd1
    rw [hclip]
    rfl
  · -- boundary case: t is exactly the node i/N, the loop used interval i-1
    have hik' : (i : ℝ) = (k : ℝ) + 1 := by exact_mod_cast hcase
    have hteq : t = (i : ℝ) / Nr := by
      apply le_antisymm _ hi1
      rw [hik']; exact hkp'
    have heval := squaredlerp_eval colors t k (by omega)
      (by rw [← hL, ← hNrdef]; exact hk) (by omega)
      (by
        have h : (0 : ℝ) ≤ npClip ((t - (k : ℝ) / Nr) / (1 / Nr)) 0 1 :=
          le_min zero_le_one (le_max_left 0 _)
        rw [← hL, ← hNrdef]
        push_neg
        exact h)
    rw [← hL, ← hNrdef] at heval
    rw [heval]
    have hclip : npClip ((t - (k : ℝ) / Nr) / (1 / Nr)) 0 1 = 1 := by
      rw [div_one_div_eq]
      have harg : (t - (k : ℝ) / Nr) * Nr = 1 := by
        rw [hteq, hik', div_sub_div_same, add_sub_cancel_left, div_mul_cancel₀ _ hNe]
      rw [harg, npClip]
      norm_num
    have hdz : t - (i : ℝ) / Nr = 0 := by rw [hteq, sub_self]
    rw [hclip, hdz]
    have hfun : (fun c => Real.sqrt ((1 - 1) * colors.getD k 0 c ^ 2
                  + 1 * colors.getD (k + 1) 0 c ^ 2)) =
        (fun c => Real.sqrt ((1 - 0 * Nr) * colors.getD i 0 c ^ 2
                  + 0 * Nr * colors.getD (i + 1) 0 c ^ 2)) := by
      funext c
      rw [hcase]
      congr 1
      ring
    rw [hfun]
    rfl

/-- C2 witness: the midpoint of a black-to-white two-color scale is
`sqrt(1/2)` in every channel. -/
theorem C2_get_color_squaredlerp_witness :
    get_color ⟨0, 1, [![0, 0, 0], ![1, 1, 1]]⟩ (1/2) "rgb" =
      .ok (.rgb (fun _ => Real.sqrt (1/2))) := by
  have h := C2_get_color_squaredlerp 0 1 (1/2) [![0, 0, 0], ![1, 1, 1]]
    ⟨0, 1, [![0, 0, 0], ![1, 1, 1]]⟩ 0 rfl
    (by norm_num) (by norm_num) (by norm_num) (by norm_num)
    (by norm_num) (by norm_num) (by norm_num)
  rw [h]
  refine congrArg Except.ok (congrArg ColorRet.rgb (funext fun c => ?_))
  fin_cases c <;> norm_num

/-- C8 witness: a singleton color list at `t = 0` interpolates successfully. -/
theorem C8_squaredlerp_total_witness :
    ([![0, 0, 0]] : List V3) ≠ [] ∧ ∃ c, squaredlerp [![0, 0, 0]] 0 = .ok c :=
  ⟨by simp, C8_squaredlerp_total [![0, 0, 0]] 0 (by simp) le_rfl zero_le_one⟩

theorem cancel_pos (u x y : ℝ) (hu : u ≠ 0) (h : u * x = u * y) : x = y :=
  mul_left_cancel₀ hu h

theorem cancel_neg (u x y : ℝ) (hu : u ≠ 0) (h : (-u) * x = u * y) : x = -y := by
  have h2 : u * x = u * (-y) := by ring_nf; ring_nf at h; linarith
  exact mul_left_cancel₀ hu h2

theorem pivot_resolve (p p' b b' c c' d d' : ℝ) (hp : p' ≠ 0)
    (h1 : p ^ 2 = p' ^ 2) (hb : p * b = p' * b') (hc : p * c = p' * c')
    (hd : p * d = p' * d') :
    (p = p' ∧ b = b' ∧ c = c' ∧ d = d') ∨
    (p = -p' ∧ b = -b' ∧ c = -c' ∧ d = -d') := by
  have hsplit : p = p' ∨ p = -p' := by
    have hz : (p - p') * (p + p') = 0 := by nlinarith [h1]
    rcases mul_eq_zero.mp hz with h | h
    · left; linarith
    · right; linarith
  rcases hsplit with he | he
  · exact Or.inl ⟨he, cancel_pos p' _ _ hp (he ▸ hb),
      cancel_pos p' _ _ hp (he ▸ hc), cancel_pos p' _ _ hp (he ▸ hd)⟩
  · exact Or.inr ⟨he, cancel_neg p' _ _ hp (he ▸ hb),
      cancel_neg p' _ _ hp (he ▸ hc), cancel_neg p' _ _ hp (he ▸ hd)⟩

theorem quat_eq_or_neg_of_products (a b c d a' b' c' d' : ℝ)
    (h1 : a ^ 2 = a' ^ 2) (h2 : b ^ 2 = b' ^ 2) (h3 : c ^ 2 = c' ^ 2)
    (h4 : d ^ 2 = d' ^ 2)
    (hab : a * b = a' * b') (hac : a * c = a' * c') (had : a * d = a' * d')
    (hbc : b * c = b' * c') (hbd : b * d = b' * d') (hcd : c * d = c' * d')
    (hn : a' ^ 2 + b' ^ 2 + c' ^ 2 + d' ^ 2 = 1) :
    (a = a' ∧ b = b' ∧ c = c' ∧ d = d') ∨
    (a = -a' ∧ b = -b' ∧ c = -c' ∧ d = -d') := by
  by_cases ha : a' = 0
  · have haz : a = 0 := by
      have : a ^ 2 = 0 := by rw [h1, ha]; ring
      exact pow_eq_zero_iff two_ne_zero |>.mp this
    by_cases hbz : b' = 0
    · have hbz' : b = 0 := by
        have : b ^ 2 = 0 := by rw [h2, hbz]; ring
        exact pow_eq_zero_iff two_ne_zero |>.mp this
      by_cases hcz : c' = 0
      · have hcz' : c = 0 := by
          have : c ^ 2 = 0 := by rw [h3, hcz]; ring
          exact pow_eq_zero_iff two_ne_zero |>.mp this
        have hdz : d' ≠ 0 := by
          intro hd0
          rw [ha, hbz, hcz, hd0] at hn
          norm_num at hn
        have hsplit : d = d' ∨ d = -d' := by
          have hz : (d - d') * (d + d') = 0 := by nlinarith [h4]
          rcases mul_eq_zero.mp hz with h | h
          · left; linarith
          · right; linarith
        rcases hsplit with he | he
        · exact Or.inl ⟨by rw [haz, ha], by rw [hbz', hbz], by rw [hcz', hcz], he⟩
        · exact Or.inr ⟨by rw [haz, ha]; ring, by rw [hbz', hbz]; ring,
            by rw [hcz', hcz]; ring, he⟩
      · rcases pivot_resolve c c' d d' a a' b b' hcz h3 hcd
          (by linarith [hac]) (by linarith [hbc]) with ⟨e1, e2, e3, e4⟩ | ⟨e1, e2, e3, e4⟩
        · exact Or.inl ⟨e3, e4, e1, e2⟩
        · exact Or.inr ⟨e3, e4, e1, e2⟩
    · rcases pivot_resolve b b' c c' d d' a a' hbz h2 hbc hbd
        (by linarith [hab]) with ⟨e1, e2, e3, e4⟩ | ⟨e1, e2, e3, e4⟩
      · exact Or.inl ⟨e4, e1, e2, e3⟩
      · exact Or.inr ⟨e4, e1, e2, e3⟩
  · rcases pivot_resolve a a' b b' c c' d d' ha h1 hab hac had with h | h
    · exact Or.inl h
    · exact Or.inr h

theorem rotMat3_eq_up_to_sign (p q : Quat) (hp : unitQ p) (hq : unitQ q)
    (h : rotMat3 p = rotMat3 q) : p = q ∨ p = -q := by
  have e := fun (i j : Fin 3) => congrFun (congrFun h i) j
  have e00 := e 0 0
  have e01 := e 0 1
  have e02 := e 0 2
  have e10 := e 1 0
  have e11 := e 1 1
  have e12 := e 1 2
  have e20 := e 2 0
  have e21 := e 2 1
  have e22 := e 2 2
  simp only [rotMat3, Matrix.cons_val', Matrix.cons_val_zero, Matrix.cons_val_one,
    Matrix.head_cons, Matrix.empty_val', Matrix.cons_val_fin_one, Matrix.head_fin_const,
    Matrix.of_apply, Matrix.cons_val_two, Matrix.tail_cons]
    at e00 e01 e02 e10 e11 e12 e20 e21 e22
  unfold unitQ at hp hq
  have h2 : p.x ^ 2 = q.x ^ 2 := by linarith
  have h3 : p.y ^ 2 = q.y ^ 2 := by linarith
  have h4 : p.z ^ 2 = q.z ^ 2 := by linarith
  have h1 : p.w ^ 2 = q.w ^ 2 := by linarith
  have hwx : p.w * p.x = q.w * q.x := by linarith
  have hwy : p.w * p.y = q.w * q.y := by linarith
  have hwz : p.w * p.z = q.w * q.z := by linarith
  have hxy : p.x * p.y = q.x * q.y := by linarith
  have hxz : p.x * p.z = q.x * q.z := by linarith
  have hyz : p.y * p.z = q.y * q.z := by linarith
  rcases quat_eq_or_neg_of_products p.w p.x p.y p.z q.w q.x q.y q.z
    h1 h2 h3 h4 hwx hwy hwz hxy hxz hyz hq with ⟨f1, f2, f3, f4⟩ | ⟨f1, f2, f3, f4⟩
  · exact Or.inl (Quat.ext f1 f2 f3 f4)
  · exact Or.inr (Quat.ext f1 f2 f3 f4)

theorem from_rotation_matrix_rotMat3 (q : Quat) (hq : unitQ q) :
    from_rotation_matrix (rotMat3 q) = q ∨ from_rotation_matrix (rotMat3 q) = -q := by
  rw [from_rotation_matrix]
  have hex : ∃ p, unitQ p ∧ rotMat3 p = rotMat3 q := ⟨q, hq, rfl⟩
  rw [dif_pos hex]
  obtain ⟨hu, hm⟩ := hex.choose_spec
  exact rotMat3_eq_up_to_sign _ q hu hq hm

theorem cos_sin_atan2 (x y : ℝ) (hy : 0 < y) (hxy : x ^ 2 + y ^ 2 = 1) :
    Real.cos (atan2 y x) = x ∧ Real.sin (atan2 y x) = y := by
  rcases lt_trichotomy x 0 with hx | hx | hx
  · -- x < 0, 0 ≤ y: arctan (y/x) + pi
    have hxne : x ≠ 0 := ne_of_lt hx
    have hs : Real.sqrt (1 + (y / x) ^ 2) = -(1 / x) := by
      have harg : 1 + (y / x) ^ 2 = (-(1 / x)) ^ 2 := by
        field_simp
        linarith
      rw [harg, Real.sqrt_sq (by
        have hneg : 1 / x < 0 := div_neg_of_pos_of_neg one_pos hx
        linarith)]
    have hA : atan2 y x = Real.arctan (y / x) + π := by
      rw [atan2, if_neg (by linarith), if_pos hx, if_pos (le_of_lt hy)]
    constructor
    · rw [hA, Real.cos_add, Real.cos_pi, Real.sin_pi, Real.cos_arctan, hs]
      field_simp
    · rw [hA, Real.sin_add, Real.cos_pi, Real.sin_pi, Real.sin_arctan, hs]
      field_simp
  · -- x = 0: pi/2
    have hA : atan2 y x = π / 2 := by
      rw [atan2, if_neg (by linarith), if_neg (by linarith), if_pos hy]
    have hy1 : y = 1 := by
      have hz : (y - 1) * (y + 1) = 0 := by nlinarith
      rcases mul_eq_zero.mp hz with h | h
      · linarith
      · linarith
    rw [hA, Real.cos_pi_div_two, Real.sin_pi_div_two, hx, hy1]
    exact ⟨rfl, rfl⟩
  · -- 0 < x: arctan (y/x)
    have hxne : x ≠ 0 := ne_of_gt hx
    have hs : Real.sqrt (1 + (y / x) ^ 2) = 1 / x := by
      have harg : 1 + (y / x) ^ 2 = (1 / x) ^ 2 := by
        field_simp
        linarith
      rw [harg, Real.sqrt_sq (by positivity)]
    have hA : atan2 y x = Real.arctan (y / x) := by rw [atan2, if_pos hx]
    constructor
    · rw [hA, Real.cos_arctan, hs, one_div_one_div]
    · rw [hA, Real.sin_arctan, hs]
      rw [div_one_div_eq, div_mul_cancel₀ _ hxne]

theorem atan2_pos_of_pos (x y : ℝ) (hy : 0 < y) : 0 < atan2 y x := by
  rw [atan2]
  split_ifs with h1 h2 h3 h4 h5 <;>
  first
    | (have h := Real.arctan_strictMono (div_pos hy h1)
       rw [Real.arctan_zero] at h
       exact h)
    | (have ha := Real.neg_pi_div_two_lt_arctan (y / x)
       have hp := Real.pi_pos
       linarith)
    | linarith
    | (have hp := Real.pi_pos
       linarith)

theorem vnormSq_nonneg (q : Quat) : 0 ≤ vnormSq q := by
  unfold vnormSq
  positivity

theorem frv_arv (q : Quat) (hq : unitQ q) :
    from_rotation_vector (as_rotation_vector q) = q ∨
    from_rotation_vector (as_rotation_vector q) = -q := by
  by_cases hrz : Real.sqrt (vnormSq q) = 0
  · -- zero vector part: the round trip gives the identity quaternion
    have hv : vnormSq q = 0 := by
      have := Real.sq_sqrt (vnormSq_nonneg q)
      rw [hrz] at this
      simpa using this.symm
    have hx : q.x = 0 := by
      unfold vnormSq at hv
      nlinarith [sq_nonneg q.x, sq_nonneg q.y, sq_nonneg q.z]
    have hy : q.y = 0 := by
      unfold vnormSq at hv
      nlinarith [sq_nonneg q.x, sq_nonneg q.y, sq_nonneg q.z]
    have hz : q.z = 0 := by
      unfold vnormSq at hv
      nlinarith [sq_nonneg q.x, sq_nonneg q.y, sq_nonneg q.z]
    have harv : as_rotation_vector q = 0 := by
      simp only [as_rotation_vector]
      rw [if_pos hrz]
    have hfrv : from_rotation_vector (as_rotation_vector q) = ⟨1, 0, 0, 0⟩ := by
      rw [harv]
      simp only [from_rotation_vector, norm3, Pi.zero_apply]
      norm_num
    have hw : q.w = 1 ∨ q.w = -1 := by
      unfold unitQ at hq
      have hz2 : (q.w - 1) * (q.w + 1) = 0 := by nlinarith
      rcases mul_eq_zero.mp hz2 with h | h
      · left; linarith
      · right; linarith
    rcases hw with h | h
    · left
      have hQ : q = ⟨1, 0, 0, 0⟩ := by
        apply Quat.ext <;> simp [h, hx, hy, hz]
      rw [hfrv, hQ]
    · right
      have hQ : (-q) = ⟨1, 0, 0, 0⟩ := by
        apply Quat.ext
        · show -q.w = _
          rw [h]; norm_num
        · show -q.x = _
          rw [hx]; norm_num
        · show -q.y = _
          rw [hy]; norm_num
        · show -q.z = _
          rw [hz]; norm_num
      rw [hfrv, hQ]
  · -- nonzero vector part: the round trip is exact
    left
    have hrpos : 0 < Real.sqrt (vnormSq q) :=
      lt_of_le_of_ne (Real.sqrt_nonneg _) (Ne.symm hrz)
    set r := Real.sqrt (vnormSq q) with hr
    have hrne : r ≠ 0 := ne_of_gt hrpos
    have hr2 : r ^ 2 = vnormSq q := Real.sq_sqrt (vnormSq_nonneg q)
    have hwr : q.w ^ 2 + r ^ 2 = 1 := by
      rw [hr2]
      unfold vnormSq
      unfold unitQ at hq
      linarith
    obtain ⟨hcos, hsin⟩ := cos_sin_atan2 q.w r hrpos hwr
    set φ := atan2 r q.w with hφ
    have hφpos : 0 < φ := atan2_pos_of_pos q.w r hrpos
    have harv : as_rotation_vector q = fun j => 2 * φ / r * (![q.x, q.y, q.z] j) := by
      simp only [as_rotation_vector]
      rw [← hr, if_neg hrne, ← hφ]
    have hθ : norm3 (as_rotation_vector q) = 2 * φ := by
      rw [harv, norm3]
      have hcomp : ((fun j => 2 * φ / r * (![q.x, q.y, q.z] j)) 0) ^ 2 +
          ((fun j => 2 * φ / r * (![q.x, q.y, q.z] j)) 1) ^ 2 +
          ((fun j => 2 * φ / r * (![q.x, q.y, q.z] j)) 2) ^ 2 = (2 * φ) ^ 2 := by
        simp only [Matrix.cons_val_zero, Matrix.cons_val_one, Matrix.head_cons,
          Matrix.cons_val_two, Matrix.tail_cons]
        have hsq : q.x ^ 2 + q.y ^ 2 + q.z ^ 2 = r ^ 2 := by
          rw [hr2]; unfold vnormSq; ring
        have expand : (2 * φ / r * q.x) ^ 2 + (2 * φ / r * q.y) ^ 2 +
            (2 * φ / r * q.z) ^ 2 = (2 * φ / r) ^ 2 * (q.x ^ 2 + q.y ^ 2 + q.z ^ 2) := by
          ring
        rw [expand, hsq, div_pow, div_mul_cancel₀ _ (pow_ne_zero 2 hrne)]
      rw [hcomp, Real.sqrt_sq (by linarith)]
    have hθne : norm3 (as_rotation_vector q) ≠ 0 := by
      rw [hθ]
      exact ne_of_gt (by linarith)
    simp only [from_rotation_vector]
    rw [if_neg hθne, hθ, harv]
    have hhalf : 2 * φ / 2 = φ := by ring
    apply Quat.ext
    · simp only [hhalf]
      exact hcos
    · simp only [hhalf, Matrix.cons_val_zero, hsin]
      field_simp
    · simp only [hhalf, Matrix.cons_val_one, Matrix.head_cons, hsin]
      field_simp
    · simp only [hhalf, Matrix.cons_val_two, Matrix.tail_cons, Matrix.head_cons, hsin]
      field_simp

theorem as_rotation_matrix_unit (q : Quat) (hq : unitQ q) :
    as_rotation_matrix q = rotMat3 q := by
  unfold unitQ at hq
  simp only [as_rotation_matrix, rotMat3, hq, div_one]

theorem m3ofRows_rot (q : Quat) :
    m3ofRows (as_rotation_matrix_rows q) = as_rotation_matrix q := by
  funext i j
  fin_cases i <;> fin_cases j <;> rfl

theorem topLeft3_rigid (q : Quat) :
    topLeft3 (rigid_mat_rows q) = as_rotation_matrix_rows q := rfl

theorem v3ofList_listOfV3 (v : V3) : v3ofList (listOfV3 v) = v := by
  funext j
  fin_cases j <;> rfl

theorem roundTrip_quaternion (q : Quat) :
    roundTrip q "quaternion" = .ok (.quat q) := rfl

theorem roundTrip_rot_mat (q : Quat) (hq : unitQ q) :
    roundTrip q "rot_mat" = .ok (.quat (from_rotation_matrix (rotMat3 q))) := by
  have hm : m3ofRows (as_rotation_matrix_rows q) = rotMat3 q := by
    rw [m3ofRows_rot, as_rotation_matrix_unit q hq]
  calc roundTrip q "rot_mat"
      = .ok (.quat (from_rotation_matrix (m3ofRows (as_rotation_matrix_rows q)))) := rfl
    _ = .ok (.quat (from_rotation_matrix (rotMat3 q))) := by rw [hm]

theorem roundTrip_matrix (q : Quat) (hq : unitQ q) :
    roundTrip q "matrix" = .ok (.quat (from_rotation_matrix (rotMat3 q))) := by
  have hm : m3ofRows (topLeft3 (rigid_mat_rows q)) = rotMat3 q := by
    rw [topLeft3_rigid, m3ofRows_rot, as_rotation_matrix_unit q hq]
  calc roundTrip q "matrix"
      = .ok (.quat (from_rotation_matrix (m3ofRows (topLeft3 (rigid_mat_rows q))))) := rfl
    _ = .ok (.quat (from_rotation_matrix (rotMat3 q))) := by rw [hm]

theorem roundTrip_rot_vec (q : Quat) :
    roundTrip q "rot_vec" = .ok (.quat (from_rotation_vector (as_rotation_vector q))) := by
  calc roundTrip q "rot_vec"
      = .ok (.quat (from_rotation_vector (v3ofList (listOfV3 (as_rotation_vector q))))) := rfl
    _ = _ := by rw [v3ofList_listOfV3]

/-- C1 (amended): for every unit quaternion and every `rot_type` in
`{'quaternion', 'rot_mat', 'rot_vec', 'matrix'}`, the round trip
`to_quaternion(as_rot_type(q, rot_type), type='quat')` returns a quaternion
equal to `q` up to global sign.  (The claim's fifth selector,
`'euler_ZYZ'`, fails: see the counterexample.) -/
theorem C1_roundtrip_amended (q : Quat) (hq : unitQ q) (ty : String)
    (hty : ty ∈ ["quaternion", "rot_mat", "rot_vec", "matrix"]) :
    roundTrip q ty = .ok (.quat q) ∨ roundTrip q ty = .ok (.quat (-q)) := by
  simp only [List.mem_cons, List.mem_singleton, List.not_mem_nil, or_false] at hty
  rcases hty with rfl | rfl | rfl | rfl
  · exact Or.inl (roundTrip_quaternion q)
  · rw [roundTrip_rot_mat q hq]
    rcases from_rotation_matrix_rotMat3 q hq with h | h
    · exact Or.inl (by rw [h])
    · exact Or.inr (by rw [h])
  · rw [roundTrip_rot_vec q]
    rcases frv_arv q hq with h | h
    · exact Or.inl (by rw [h])
    · exact Or.inr (by rw [h])
  · rw [roundTrip_matrix q hq]
    rcases from_rotation_matrix_rotMat3 q hq with h | h
    · exact Or.inl (by rw [h])
    · exact Or.inr (by rw [h])

/-- C1 amended witness: the identity quaternion round-trips through the
`'quaternion'` representation. -/
theorem C1_roundtrip_amended_witness :
    roundTrip ⟨1, 0, 0, 0⟩ "quaternion" = .ok (.quat ⟨1, 0, 0, 0⟩) ∨
    roundTrip ⟨1, 0, 0, 0⟩ "quaternion" = .ok (.quat (-⟨1, 0, 0, 0⟩)) :=
  C1_roundtrip_amended ⟨1, 0, 0, 0⟩ (by unfold unitQ; norm_num) "quaternion" (by simp)

/-- C1 counterexample: for the unit quaternion `(w,x,y,z) = (0,1,0,0)` (a
half-turn about the x-axis), the `'euler_ZYZ'` round trip does not return
`±q`: `as_euler_angles` produces the Euler triple `(-pi/2, pi, pi/2)`, and
`to_quaternion` re-interprets that length-3 array as a rotation vector. -/
theorem C1_roundtrip_counterexample :
    unitQ ⟨0, 1, 0, 0⟩ ∧
    roundTrip ⟨0, 1, 0, 0⟩ "euler_ZYZ" ≠ .ok (.quat ⟨0, 1, 0, 0⟩) ∧
    roundTrip ⟨0, 1, 0, 0⟩ "euler_ZYZ" ≠ .ok (.quat (-⟨0, 1, 0, 0⟩)) := by
  have hpi := Real.pi_pos
  have heuler : as_euler_angles ⟨0, 1, 0, 0⟩ = [-(π/2), π, π/2] := by
    unfold as_euler_angles
    norm_num [atan2, Real.sqrt_zero, Real.arccos_zero]
    ring
  have h1 : roundTrip ⟨0, 1, 0, 0⟩ "euler_ZYZ" =
      to_quaternion (.vec (as_euler_angles ⟨0, 1, 0, 0⟩)) "quat" := rfl
  have h2 : to_quaternion (.vec [-(π/2), π, π/2]) "quat" =
      .ok (.quat (from_rotation_vector ![-(π/2), π, π/2])) := rfl
  have hargpos : (0:ℝ) < (-(π/2)) ^ 2 + π ^ 2 + (π/2) ^ 2 := by positivity
  have hθpos : 0 < norm3 ![-(π/2), π, π/2] := by
    rw [norm3]
    simp only [Matrix.cons_val_zero, Matrix.cons_val_one, Matrix.head_cons,
      Matrix.cons_val_two, Matrix.tail_cons]
    exact Real.sqrt_pos.mpr hargpos
  have hθne : norm3 ![-(π/2), π, π/2] ≠ 0 := ne_of_gt hθpos
  have hθlt : norm3 ![-(π/2), π, π/2] < 2 * π := by
    rw [norm3]
    simp only [Matrix.cons_val_zero, Matrix.cons_val_one, Matrix.head_cons,
      Matrix.cons_val_two, Matrix.tail_cons]
    rw [show (2:ℝ) * π = Real.sqrt ((2*π)^2) from (Real.sqrt_sq (by linarith)).symm]
    apply Real.sqrt_lt_sqrt (le_of_lt hargpos)
    nlinarith
  have hr : from_rotation_vector ![-(π/2), π, π/2] =
      ⟨Real.cos (norm3 ![-(π/2), π, π/2] / 2),
       Real.sin (norm3 ![-(π/2), π, π/2] / 2) * (-(π/2)) / norm3 ![-(π/2), π, π/2],
       Real.sin (norm3 ![-(π/2), π, π/2] / 2) * π / norm3 ![-(π/2), π, π/2],
       Real.sin (norm3 ![-(π/2), π, π/2] / 2) * (π/2) / norm3 ![-(π/2), π, π/2]⟩ := by
    simp only [from_rotation_vector]
    rw [if_neg hθne]
    rfl
  have hsin : 0 < Real.sin (norm3 ![-(π/2), π, π/2] / 2) :=
    Real.sin_pos_of_pos_of_lt_pi (by linarith) (by linarith)
  have hy : 0 < (from_rotation_vector ![-(π/2), π, π/2]).y := by
    rw [hr]
    exact div_pos (mul_pos hsin hpi) hθpos
  refine ⟨by unfold unitQ; norm_num, ?_, ?_⟩
  · intro hcontra
    rw [h1, heuler, h2] at hcontra
    have := congrArg (fun e => match e with
      | Except.ok (ToQuatRet.quat p) => p.y
      | _ => 0) hcontra
    simp only at this
    rw [this] at hy
    exact lt_irrefl 0 hy
  · intro hcontra
    rw [h1, heuler, h2] at hcontra
    have := congrArg (fun e => match e with
      | Except.ok (ToQuatRet.quat p) => p.y
      | _ => 0) hcontra
    simp only at this
    have hneg : (-(⟨0, 1, 0, 0⟩ : Quat)).y = 0 := by norm_num [Neg.neg]
    rw [this, hneg] at hy
    exact lt_irrefl 0 hy

/-- C4 (code-bug evaluation): an `(axis, angle)` pair sent through
`to_quaternion` hits the `len(rot) == 2` branch, whose
`quat.from_rotation_vector(...)` result is never assigned to `q`, so the
function raises `UnboundLocalError` instead of returning the quaternion of
the rotation as its docstring promises. -/
theorem C4_to_quaternion_axis_angle_bug :
    to_quaternion (.tup2 [0, 0, 1] (π/2)) "quat" =
      .error "UnboundLocalError: local variable q referenced before assignment" := rfl

theorem movementToQuat_unrecognized (r : NpArr) (ty : String)
    (hty : ty ∉ ROTATION_TYPES) :
    movementToQuat r ty =
      .error "ValueError: rot_type must be one of: quaternion, euler_ZYZ, rot_mat, rot_vec" := by
  simp only [ROTATION_TYPES, List.mem_cons, List.not_mem_nil, or_false, not_or] at hty
  obtain ⟨h1, h2, h3, h4⟩ := hty
  simp only [movementToQuat, if_neg h1, if_neg h2, if_neg h3, if_neg h4]

theorem rigid_movement_of_error {A : Type} (obj : BObject A) (r : NpArr)
    (tr : Option V3) (ty : String) (e : String)
    (h : movementToQuat r ty = .error e) :
    rigid_movement obj (some r) tr ty = (.error e, obj) := by
  simp only [rigid_movement, h]

theorem set_world_pose_of_error {A : Type} (obj : BObject A) (r : NpArr)
    (tr : Option V3) (ty : String) (sc : Option V3) (e : String)
    (h : movementToQuat r ty = .error e) :
    set_world_pose obj (some r) tr ty sc = (.error e, obj) := by
  simp only [set_world_pose, h]

theorem as_rot_type_unrecognized (q : Quat) (ty : String)
    (hty : ty ∉ ["quaternion", "euler_ZYZ", "rot_mat", "rot_vec", "axis_angle", "matrix"]) :
    as_rot_type q ty = .error "ValueError: rot_type must be one of ACCEPTED_ROT_TYPES" := by
  simp only [List.mem_cons, List.not_mem_nil, or_false, not_or] at hty
  obtain ⟨h1, h2, h3, h4, h5, h6⟩ := hty
  simp only [as_rot_type, if_neg h1, if_neg h2, if_neg h3, if_neg h4, if_neg h5, if_neg h6]

theorem get_color_bad_ret_type (minv maxv : ℝ) (colors : List V3) (v : ℝ)
    (rt : String) (hlt : minv < maxv) (hne : colors ≠ [])
    (h1 : ¬ rt = "rgb") (h2 : ¬ rt = "hsv") (h3 : ¬ rt = "hex") :
    get_color ⟨minv, maxv, colors⟩ v rt =
      .error "ValueError: ret_type must be one of rgb, hsv, hex" := by
  have hsub : ¬ (maxv - minv = 0) := sub_ne_zero.mpr (ne_of_gt hlt)
  have hsubpos : (0 : ℝ) < maxv - minv := sub_pos.mpr hlt
  have ht0 : 0 ≤ (max (min v maxv) minv - minv) / (maxv - minv) := by
    apply div_nonneg _ (le_of_lt hsubpos)
    have : minv ≤ max (min v maxv) minv := le_max_right _ _
    linarith
  have ht1 : (max (min v maxv) minv - minv) / (maxv - minv) ≤ 1 := by
    rw [div_le_one hsubpos]
    have : max (min v maxv) minv ≤ maxv := max_le (min_le_right v maxv) (le_of_lt hlt)
    linarith
  obtain ⟨c, hc⟩ := squaredlerp_ok colors _ hne ht0 ht1
  simp only [get_color, if_neg hsub, hc]
  simp only [as_color_type, if_neg h1, if_neg h2, if_neg h3]

theorem from_float_array_len4 (l : List ℝ) (hl : l.length = 4) :
    ∃ q, from_float_array l = .ok q := by
  match l, hl with
  | [a, b, c, d], _ => exact ⟨⟨a, b, c, d⟩, rfl⟩

theorem to_quaternion_fallthrough (l : List ℝ) (ty : String) (hl : l.length = 4)
    (h1 : ¬ ty = "tuple") (h2 : ¬ ty = "quat") :
    to_quaternion (.vec l) ty = .ok .pynone := by
  obtain ⟨q, hq⟩ := from_float_array_len4 l hl
  simp only [to_quaternion, npLen, hl, hq]
  norm_num [if_neg h1, if_neg h2]

/-- C3 (amended): `rigid_movement` and `set_world_pose` raise `ValueError`
when `rotation` is given and `rot_type` is not one of the four recognized
names; `as_rot_type` raises `ValueError` when `rot_type` is none of the six
strings its dispatch handles; `ColorScale.get_color` raises `ValueError`
when `ret_type` is not `'rgb'`, `'hsv'` or `'hex'`; but `to_quaternion`,
when its `type` argument is neither `'tuple'` nor `'quat'`, raises nothing
and falls through to an implicit `return None`. -/
theorem C3_unrecognized_selectors :
    (∀ (A : Type) (obj : BObject A) (r : NpArr) (tr : Option V3) (ty : String),
        ty ∉ ROTATION_TYPES →
        rigid_movement obj (some r) tr ty =
          (.error "ValueError: rot_type must be one of: quaternion, euler_ZYZ, rot_mat, rot_vec", obj)) ∧
    (∀ (A : Type) (obj : BObject A) (r : NpArr) (tr : Option V3) (ty : String) (sc : Option V3),
        ty ∉ ROTATION_TYPES →
        set_world_pose obj (some r) tr ty sc =
          (.error "ValueError: rot_type must be one of: quaternion, euler_ZYZ, rot_mat, rot_vec", obj)) ∧
    (∀ (q : Quat) (ty : String),
        ty ∉ ["quaternion", "euler_ZYZ", "rot_mat", "rot_vec", "axis_angle", "matrix"] →
        as_rot_type q ty = .error "ValueError: rot_type must be one of ACCEPTED_ROT_TYPES") ∧
    (∀ (minv maxv : ℝ) (colors : List V3) (cs : ColorScale) (v : ℝ) (rt : String),
        mkColorScale minv maxv false (.list colors) = .ok cs →
        minv < maxv → colors ≠ [] → rt ∉ (["rgb", "hsv", "hex"] : List String) →
        get_color cs v rt = .error "ValueError: ret_type must be one of rgb, hsv, hex") ∧
    (∀ (l : List ℝ) (ty : String), l.length = 4 →
        ty ≠ "tuple" → ty ≠ "quat" →
        to_quaternion (.vec l) ty = .ok .pynone) := by
  refine ⟨?_, ?_, ?_, ?_, ?_⟩
  · intro A obj r tr ty hty
    exact rigid_movement_of_error obj r tr ty _ (movementToQuat_unrecognized r ty hty)
  · intro A obj r tr ty sc hty
    exact set_world_pose_of_error obj r tr ty sc _ (movementToQuat_unrecognized r ty hty)
  · intro q ty hty
    exact as_rot_type_unrecognized q ty hty
  · intro minv maxv colors cs v rt hmk hlt hne hrt
    have hcs := mkColorScale_list minv maxv colors cs hmk
    subst hcs
    simp only [List.mem_cons, List.not_mem_nil, or_false, not_or] at hrt
    exact get_color_bad_ret_type minv maxv colors v rt hlt hne hrt.1 hrt.2.1 hrt.2.2
  · intro l ty hl h1 h2
    exact to_quaternion_fallthrough l ty hl h1 h2

/-- C3 counterexample: `to_quaternion` with a well-formed quaternion array
and the unrecognized `type` string `"other"` raises nothing: it returns
Python `None` by falling off the end of the function. -/
theorem C3_unrecognized_selectors_counterexample :
    to_quaternion (.vec [1, 0, 0, 0]) "other" = .ok .pynone := rfl

/-- C3 witness: the amended statement instantiated at concrete inputs with
the unrecognized selector string `"bogus"`. -/
theorem C3_unrecognized_selectors_witness :
    rigid_movement (⟨1, 0⟩ : BObject ℕ) (some (.vec [1, 0, 0, 0])) Option.none "bogus" =
      (.error "ValueError: rot_type must be one of: quaternion, euler_ZYZ, rot_mat, rot_vec",
       (⟨1, 0⟩ : BObject ℕ)) ∧
    set_world_pose (⟨1, 0⟩ : BObject ℕ) (some (.vec [1, 0, 0, 0])) Option.none "bogus"
        Option.none =
      (.error "ValueError: rot_type must be one of: quaternion, euler_ZYZ, rot_mat, rot_vec",
       (⟨1, 0⟩ : BObject ℕ)) ∧
    as_rot_type ⟨1, 0, 0, 0⟩ "bogus" =
      .error "ValueError: rot_type must be one of ACCEPTED_ROT_TYPES" ∧
    get_color ⟨0, 1, [![0, 0, 0]]⟩ 0 "bogus" =
      .error "ValueError: ret_type must be one of rgb, hsv, hex" ∧
    to_quaternion (.vec [1, 0, 0, 0]) "bogus" = .ok .pynone := by
  have h := C3_unrecognized_selectors
  exact ⟨h.1 ℕ ⟨1, 0⟩ (.vec [1, 0, 0, 0]) Option.none "bogus" (by decide),
    h.2.1 ℕ ⟨1, 0⟩ (.vec [1, 0, 0, 0]) Option.none "bogus" Option.none (by decide),
    h.2.2.1 ⟨1, 0, 0, 0⟩ "bogus" (by decide),
    h.2.2.2.1 0 1 [![0, 0, 0]] ⟨0, 1, [![0, 0, 0]]⟩ 0 "bogus" rfl (by norm_num)
      (by simp) (by decide),
    h.2.2.2.2 [1, 0, 0, 0] "bogus" rfl (by decide) (by decide)⟩

/-- C5: when `rigid_movement` or `set_world_pose` raises `ValueError` for an
unrecognized `rot_type` (with `rotation` given), the returned object state is
exactly the input object: `matrix_world` and every other attribute are
untouched, because the exception fires before any assignment. -/
theorem C5_error_is_atomic (A : Type) (obj : BObject A) (r : NpArr)
    (tr : Option V3) (sc : Option V3) (ty : String) (hty : ty ∉ ROTATION_TYPES) :
    (rigid_movement obj (some r) tr ty).2 = obj ∧
    (set_world_pose obj (some r) tr ty sc).2 = obj ∧
    (rigid_movement obj (some r) tr ty).1 =
      .error "ValueError: rot_type must be one of: quaternion, euler_ZYZ, rot_mat, rot_vec" ∧
    (set_world_pose obj (some r) tr ty sc).1 =
      .error "ValueError: rot_type must be one of: quaternion, euler_ZYZ, rot_mat, rot_vec" := by
  have hrm := rigid_movement_of_error obj r tr ty _ (movementToQuat_unrecognized r ty hty)
  have hsw := set_world_pose_of_error obj r tr ty sc _ (movementToQuat_unrecognized r ty hty)
  rw [hrm, hsw]
  exact ⟨rfl, rfl, rfl, rfl⟩

/-- C5 witness: a concrete object is returned unchanged on the error path. -/
theorem C5_error_is_atomic_witness :
    (rigid_movement (⟨1, 42⟩ : BObject ℕ) (some (.vec [1, 0, 0, 0])) Option.none "bogus").2 =
      (⟨1, 42⟩ : BObject ℕ) ∧
    (set_world_pose (⟨1, 42⟩ : BObject ℕ) (some (.vec [1, 0, 0, 0])) Option.none "bogus"
        Option.none).2 = (⟨1, 42⟩ : BObject ℕ) ∧
    (rigid_movement (⟨1, 42⟩ : BObject ℕ) (some (.vec [1, 0, 0, 0])) Option.none "bogus").1 =
      .error "ValueError: rot_type must be one of: quaternion, euler_ZYZ, rot_mat, rot_vec" ∧
    (set_world_pose (⟨1, 42⟩ : BObject ℕ) (some (.vec [1, 0, 0, 0])) Option.none "bogus"
        Option.none).1 =
      .error "ValueError: rot_type must be one of: quaternion, euler_ZYZ, rot_mat, rot_vec" :=
  C5_error_is_atomic ℕ ⟨1, 42⟩ (.vec [1, 0, 0, 0]) Option.none Option.none "bogus" (by decide)

theorem Quat.neg_w (q : Quat) : (-q).w = -q.w := rfl

theorem Quat.neg_x (q : Quat) : (-q).x = -q.x := rfl

theorem Quat.neg_y (q : Quat) : (-q).y = -q.y := rfl

theorem Quat.neg_z (q : Quat) : (-q).z = -q.z := rfl

theorem rotMat3_neg (q : Quat) : rotMat3 (-q) = rotMat3 q := by
  funext i j
  fin_cases i <;> fin_cases j <;>
    simp [rotMat3, Quat.neg_w, Quat.neg_x, Quat.neg_y, Quat.neg_z] <;> ring

theorem unitQ_neg (q : Quat) (hq : unitQ q) : unitQ (-q) := by
  unfold unitQ at *
  rw [Quat.neg_w, Quat.neg_x, Quat.neg_y, Quat.neg_z]
  nlinarith [hq]

theorem scaleChain_eq (s : V3) : scaleChain s = aff (diag3 s) := by
  funext i j
  fin_cases i <;> fin_cases j <;>
    simp [scaleChain, MatrixScale, aff, diag3, Matrix.mul_apply,
      Fin.sum_univ_four, Matrix.of_apply, Matrix.cons_val_zero, Matrix.cons_val_one,
      Matrix.head_cons, Matrix.cons_val_two, Matrix.tail_cons] <;>
    first
      | rfl
      | ring

theorem assemble_trs (t : V3) (B C : M3) :
    trMat t * aff B * aff C = trs t (B * C) := by
  funext i j
  fin_cases i <;> fin_cases j <;>
    simp [trMat, aff, trs, Matrix.mul_apply, Fin.sum_univ_four, Fin.sum_univ_three] <;>
    ring

theorem trs_inj (t t' : V3) (B B' : M3) (h : trs t B = trs t' B') :
    t = t' ∧ B = B' := by
  have e := fun (i j : Fin 4) => congrFun (congrFun h i) j
  constructor
  · funext i
    fin_cases i
    · simpa [trs] using e 0 3
    · simpa [trs] using e 1 3
    · simpa [trs] using e 2 3
  · funext i j
    fin_cases i <;> fin_cases j <;>
      first
        | simpa [trs] using e 0 0
        | simpa [trs] using e 0 1
        | simpa [trs] using e 0 2
        | simpa [trs] using e 1 0
        | simpa [trs] using e 1 1
        | simpa [trs] using e 1 2
        | simpa [trs] using e 2 0
        | simpa [trs] using e 2 1
        | simpa [trs] using e 2 2

theorem rotMat3_col_norm0 (q : Quat) (hq : unitQ q) :
    (rotMat3 q 0 0) ^ 2 + (rotMat3 q 1 0) ^ 2 + (rotMat3 q 2 0) ^ 2 = 1 := by
  unfold unitQ at hq
  simp only [rotMat3, Matrix.cons_val', Matrix.cons_val_zero, Matrix.cons_val_one,
    Matrix.head_cons, Matrix.empty_val', Matrix.cons_val_fin_one, Matrix.head_fin_const,
    Matrix.of_apply, Matrix.cons_val_two, Matrix.tail_cons]
  linear_combination (4 * (q.y ^ 2 + q.z ^ 2)) * hq

theorem rotMat3_col_norm1 (q : Quat) (hq : unitQ q) :
    (rotMat3 q 0 1) ^ 2 + (rotMat3 q 1 1) ^ 2 + (rotMat3 q 2 1) ^ 2 = 1 := by
  unfold unitQ at hq
  simp only [rotMat3, Matrix.cons_val', Matrix.cons_val_zero, Matrix.cons_val_one,
    Matrix.head_cons, Matrix.empty_val', Matrix.cons_val_fin_one, Matrix.head_fin_const,
    Matrix.of_apply, Matrix.cons_val_two, Matrix.tail_cons]
  linear_combination (4 * (q.x ^ 2 + q.z ^ 2)) * hq

theorem rotMat3_col_norm2 (q : Quat) (hq : unitQ q) :
    (rotMat3 q 0 2) ^ 2 + (rotMat3 q 1 2) ^ 2 + (rotMat3 q 2 2) ^ 2 = 1 := by
  unfold unitQ at hq
  simp only [rotMat3, Matrix.cons_val', Matrix.cons_val_zero, Matrix.cons_val_one,
    Matrix.head_cons, Matrix.empty_val', Matrix.cons_val_fin_one, Matrix.head_fin_const,
    Matrix.of_apply, Matrix.cons_val_two, Matrix.tail_cons]
  linear_combination (4 * (q.x ^ 2 + q.y ^ 2)) * hq

theorem rotMat3_col_norm (q : Quat) (hq : unitQ q) (j : Fin 3) :
    (rotMat3 q 0 j) ^ 2 + (rotMat3 q 1 j) ^ 2 + (rotMat3 q 2 j) ^ 2 = 1 := by
  fin_cases j
  · exact rotMat3_col_norm0 q hq
  · exact rotMat3_col_norm1 q hq
  · exact rotMat3_col_norm2 q hq

theorem mul_diag3_apply (R : M3) (s : V3) (i j : Fin 3) :
    (R * diag3 s) i j = R i j * s j := by
  fin_cases i <;> fin_cases j <;>
    simp [diag3, Matrix.mul_apply, Fin.sum_univ_three, Matrix.cons_val', Matrix.cons_val_zero,
      Matrix.cons_val_one, Matrix.head_cons, Matrix.empty_val', Matrix.cons_val_fin_one,
      Matrix.head_fin_const, Matrix.of_apply, Matrix.cons_val_two, Matrix.tail_cons] <;>
    first
      | rfl
      | exact Or.inr rfl
      | ring

theorem sq_inj_pos (a b : ℝ) (ha : 0 < a) (hb : 0 < b) (h : a ^ 2 = b ^ 2) : a = b := by
  have hz : (a - b) * (a + b) = 0 := by nlinarith [h]
  rcases mul_eq_zero.mp hz with h' | h'
  · linarith
  · linarith

theorem rotdiag_inj (p q : Quat) (s s' : V3) (hp : unitQ p) (hq : unitQ q)
    (hs : ∀ i, 0 < s i) (hs' : ∀ i, 0 < s' i)
    (h : rotMat3 p * diag3 s = rotMat3 q * diag3 s') :
    s = s' ∧ rotMat3 p = rotMat3 q := by
  have e : ∀ (i j : Fin 3), rotMat3 p i j * s j = rotMat3 q i j * s' j := by
    intro i j
    have hij := congrFun (congrFun h i) j
    rw [mul_diag3_apply, mul_diag3_apply] at hij
    exact hij
  have hsj : ∀ j : Fin 3, s j = s' j := by
    intro j
    have hcolp := rotMat3_col_norm p hp j
    have hcolq := rotMat3_col_norm q hq j
    have hsq : (s j) ^ 2 = (s' j) ^ 2 := by
      have h1 : (rotMat3 p 0 j * s j) ^ 2 + (rotMat3 p 1 j * s j) ^ 2 +
          (rotMat3 p 2 j * s j) ^ 2 = (s j) ^ 2 := by
        linear_combination (s j) ^ 2 * hcolp
      have h2 : (rotMat3 q 0 j * s' j) ^ 2 + (rotMat3 q 1 j * s' j) ^ 2 +
          (rotMat3 q 2 j * s' j) ^ 2 = (s' j) ^ 2 := by
        linear_combination (s' j) ^ 2 * hcolq
      rw [← h1, ← h2, e 0 j, e 1 j, e 2 j]
    exact sq_inj_pos _ _ (hs j) (hs' j) hsq
  refine ⟨funext hsj, ?_⟩
  funext i j
  have hij := e i j
  rw [hsj j] at hij
  exact mul_right_cancel₀ (ne_of_gt (hs' j)) hij

theorem decompose_valid (m : M4) :
    unitQ (decompose m).2.1 ∧ 0 ≤ (decompose m).2.1.w ∧
    ∀ i, 0 < (decompose m).2.2 i := by
  rw [decompose]
  split_ifs with h
  · obtain ⟨h1, h2, h3, -⟩ := h.choose_spec
    exact ⟨h1, h2, h3⟩
  · exact ⟨by unfold unitQ; norm_num, by norm_num, fun i => by norm_num⟩

theorem decompose_trs (t : V3) (q : Quat) (s : V3) (hq : unitQ q)
    (hs : ∀ i, 0 < s i) :
    (decompose (trs t (rotMat3 q * diag3 s))).1 = t ∧
    (decompose (trs t (rotMat3 q * diag3 s))).2.2 = s ∧
    rotMat3 (decompose (trs t (rotMat3 q * diag3 s))).2.1 = rotMat3 q := by
  have hex : ∃ p : V3 × Quat × V3, unitQ p.2.1 ∧ 0 ≤ p.2.1.w ∧ (∀ i, 0 < p.2.2 i) ∧
      trs t (rotMat3 q * diag3 s) = trs p.1 (rotMat3 p.2.1 * diag3 p.2.2) := by
    by_cases hw : 0 ≤ q.w
    · exact ⟨(t, q, s), hq, hw, hs, rfl⟩
    · refine ⟨(t, -q, s), unitQ_neg q hq, ?_, hs, ?_⟩
      · rw [Quat.neg_w]
        push_neg at hw
        linarith
      · rw [rotMat3_neg]
  rw [decompose, dif_pos hex]
  obtain ⟨hu, hw, hsp, heq⟩ := hex.choose_spec
  obtain ⟨ht, hB⟩ := trs_inj _ _ _ _ heq
  obtain ⟨hss, hRR⟩ := rotdiag_inj q hex.choose.2.1 s hex.choose.2.2 hq hu hs hsp hB
  exact ⟨ht.symm, hss.symm, hRR.symm⟩

theorem decompose_assembled (t : V3) (Qu : Quat) (s : V3) (hq : unitQ Qu)
    (hs : ∀ i, 0 < s i) :
    (decompose (trMat t * rotMat4 Qu * scaleChain s)).1 = t ∧
    (decompose (trMat t * rotMat4 Qu * scaleChain s)).2.2 = s ∧
    rotMat3 (decompose (trMat t * rotMat4 Qu * scaleChain s)).2.1 = rotMat3 Qu := by
  have hform : trMat t * rotMat4 Qu * scaleChain s = trs t (rotMat3 Qu * diag3 s) := by
    rw [scaleChain_eq]
    exact assemble_trs t (rotMat3 Qu) (diag3 s)
  rw [hform]
  exact decompose_trs t Qu s hq hs

theorem norm3_eq_zero (v : V3) (h : norm3 v = 0) :
    v 0 = 0 ∧ v 1 = 0 ∧ v 2 = 0 := by
  have harg : v 0 ^ 2 + v 1 ^ 2 + v 2 ^ 2 = 0 := by
    have := Real.sq_sqrt (by positivity : (0:ℝ) ≤ v 0 ^ 2 + v 1 ^ 2 + v 2 ^ 2)
    rw [show Real.sqrt (v 0 ^ 2 + v 1 ^ 2 + v 2 ^ 2) = norm3 v from rfl, h] at this
    simpa using this.symm
  refine ⟨?_, ?_, ?_⟩ <;>
    nlinarith [sq_nonneg (v 0), sq_nonneg (v 1), sq_nonneg (v 2)]

theorem movementRotMat_eq (q : Quat) :
    movementRotMat q = rotMat4 (from_rotation_vector (as_rotation_vector q)) := by
  simp only [movementRotMat, MatrixRotation, from_rotation_vector]
  by_cases hθ : norm3 (as_rotation_vector q) = 0
  · rw [if_pos hθ, hθ]
    refine congrArg rotMat4 ?_
    apply Quat.ext <;> norm_num
  · rw [if_neg hθ]
    refine congrArg rotMat4 ?_
    apply Quat.ext
    · rfl
    · ring
    · ring
    · ring

theorem frv_unit (v : V3) : unitQ (from_rotation_vector v) := by
  unfold from_rotation_vector
  by_cases hθ : norm3 v = 0
  · rw [if_pos hθ]
    unfold unitQ
    norm_num
  · rw [if_neg hθ]
    unfold unitQ
    have hv : v 0 ^ 2 + v 1 ^ 2 + v 2 ^ 2 = norm3 v ^ 2 :=
      (Real.sq_sqrt (by positivity : (0:ℝ) ≤ v 0 ^ 2 + v 1 ^ 2 + v 2 ^ 2)).symm
    have hsc := Real.sin_sq_add_cos_sq (norm3 v / 2)
    field_simp
    nlinarith [hv, hsc]

theorem from_euler_angles_unit (a b g : ℝ) : unitQ (from_euler_angles a b g) := by
  simp only [unitQ, from_euler_angles]
  have h1 := Real.sin_sq_add_cos_sq ((a + g) / 2)
  have h2 := Real.sin_sq_add_cos_sq ((a - g) / 2)
  have h3 := Real.sin_sq_add_cos_sq (b / 2)
  linear_combination (Real.cos (b / 2)) ^ 2 * h1 + (Real.sin (b / 2)) ^ 2 * h2 + h3

theorem from_rotation_matrix_spec (m : M3) (h : ∃ p, unitQ p ∧ rotMat3 p = m) :
    unitQ (from_rotation_matrix m) ∧ rotMat3 (from_rotation_matrix m) = m := by
  rw [from_rotation_matrix, dif_pos h]
  exact h.choose_spec

theorem set_world_pose_none {A : Type} (obj : BObject A) (tr : Option V3)
    (ty : String) (sc : Option V3) :
    set_world_pose obj Option.none tr ty sc =
      (.ok (), { obj with matrix_world := (trMat (tr.getD (decompose obj.matrix_world).1) * rotMat4 (decompose obj.matrix_world).2.1 * scaleChain (sc.getD (decompose obj.matrix_world).2.2)) }) := by
  cases tr <;> cases sc <;> simp only [set_world_pose, Option.getD]

theorem set_world_pose_some {A : Type} (obj : BObject A) (r : NpArr)
    (tr : Option V3) (ty : String) (sc : Option V3) (q : Quat)
    (hq : movementToQuat r ty = .ok q) :
    set_world_pose obj (Option.some r) tr ty sc =
      (.ok (), { obj with matrix_world := (trMat (tr.getD (decompose obj.matrix_world).1) * movementRotMat q * scaleChain (sc.getD (decompose obj.matrix_world).2.2)) }) := by
  cases tr <;> cases sc <;> (simp only [set_world_pose, hq, Option.getD]; try rfl)

/-- C6 counterexample: a supplied scale with a non-positive component is not
reproduced by decomposition.  With `scale = (-1, 1, 1)` the call succeeds,
but the reassembled 3x3 block has negative determinant, which no
rotation-times-positive-sizes factorisation matches (Blender's decompose
negates all three sizes in that case), so the decomposed scale of the new
`matrix_world` is not the supplied triple. -/
theorem C6_set_world_pose_counterexample :
    (set_world_pose (⟨1, 0⟩ : BObject ℕ) Option.none Option.none "quaternion"
        (Option.some ![-1, 1, 1])).1 = .ok () ∧
    (decompose ((set_world_pose (⟨1, 0⟩ : BObject ℕ) Option.none Option.none "quaternion"
        (Option.some ![-1, 1, 1])).2).matrix_world).2.2 ≠ ![-1, 1, 1] := by
  constructor
  · rw [set_world_pose_none]
  · intro hcontra
    have hpos := (decompose_valid ((set_world_pose (⟨1, 0⟩ : BObject ℕ) Option.none
      Option.none "quaternion" (Option.some ![-1, 1, 1])).2).matrix_world).2.2 0
    rw [hcontra] at hpos
    norm_num at hpos

/-- C6 (amended): frame condition of `set_world_pose` for calls whose
rotation argument (when given) decodes to a unit quaternion under the
selected `rot_type` and whose supplied scale (when given) is componentwise
positive: the call succeeds, nothing but `obj.matrix_world` is modified, the
decomposed translation and scale of the new world matrix are exactly the
supplied values (or the old decomposed values when the argument is `None`),
and the decomposed rotation matrix is the old one when `rotation` is `None`
and exactly the supplied rotation otherwise — stated once for any decoded
unit quaternion and instantiated for each of the four selectors: a unit
quaternion array under `'quaternion'`, any Euler triple under `'euler_ZYZ'`,
any rotation vector under `'rot_vec'`, and any rotation matrix under
`'rot_mat'`. -/
theorem C6_set_world_pose_frame (A : Type) (obj : BObject A)
    ( rotation : Option NpArr) (translation : Option V3) (rot_type : String)
    (scale : Option V3)
    (hrot : rotation = Option.none ∨
      ∃ r q, rotation = Option.some r ∧ movementToQuat r rot_type = .ok q)
    (hsc : ∀ s ∈ scale, ∀ i, 0 < s i) :
    ∃ obj2 : BObject A,
      set_world_pose obj rotation translation rot_type scale = (.ok (), obj2) ∧
      obj2.other = obj.other ∧
      (decompose obj2.matrix_world).1 =
        translation.getD (decompose obj.matrix_world).1 ∧
      (decompose obj2.matrix_world).2.2 =
        scale.getD (decompose obj.matrix_world).2.2 ∧
      (rotation = Option.none →
        rotMat3 (decompose obj2.matrix_world).2.1 =
          rotMat3 (decompose obj.matrix_world).2.1) ∧
      (∀ r q', rotation = Option.some r → movementToQuat r rot_type = .ok q' →
        unitQ q' →
        rotMat3 (decompose obj2.matrix_world).2.1 = rotMat3 q') ∧
      (∀ w x y z, rotation = Option.some (.vec [w, x, y, z]) →
        rot_type = "quaternion" → unitQ (⟨w, x, y, z⟩ : Quat) →
        rotMat3 (decompose obj2.matrix_world).2.1 =
          rotMat3 (⟨w, x, y, z⟩ : Quat)) ∧
      (∀ a b g, rotation = Option.some (.vec [a, b, g]) →
        rot_type = "euler_ZYZ" →
        rotMat3 (decompose obj2.matrix_world).2.1 =
          rotMat3 (from_euler_angles a b g)) ∧
      (∀ a b c, rotation = Option.some (.vec [a, b, c]) →
        rot_type = "rot_vec" →
        rotMat3 (decompose obj2.matrix_world).2.1 =
          rotMat3 (from_rotation_vector ![a, b, c])) ∧
      (∀ rows p, rotation = Option.some (.mat rows) →
        rot_type = "rot_mat" → isMat3 rows = true →
        unitQ p → rotMat3 p = m3ofRows rows →
        rotMat3 (decompose obj2.matrix_world).2.1 = m3ofRows rows) := by
  obtain ⟨hq0, hw0, hs0⟩ := decompose_valid obj.matrix_world
  have hspos : ∀ i, 0 < (scale.getD (decompose obj.matrix_world).2.2) i := by
    cases scale with
    | none => exact hs0
    | some sc => exact hsc sc (by simp)
  rcases hrot with hnone | ⟨r, q, hr, hq⟩
  · subst hnone
    refine ⟨_, set_world_pose_none obj translation rot_type scale, rfl,
      ?_, ?_, ?_, ?_, ?_, ?_, ?_, ?_⟩
    · exact (decompose_assembled _ _ _ hq0 hspos).1
    · exact (decompose_assembled _ _ _ hq0 hspos).2.1
    · intro _
      exact (decompose_assembled _ _ _ hq0 hspos).2.2
    · intro r' q'' hcontra _ _
      exact absurd hcontra (by simp)
    · intro w x y z hcontra _ _
      exact absurd hcontra (by simp)
    · intro a b g hcontra _
      exact absurd hcontra (by simp)
    · intro a b c hcontra _
      exact absurd hcontra (by simp)
    · intro rows p hcontra _ _ _ _
      exact absurd hcontra (by simp)
  · subst hr
    have hrotgen : ∀ q', movementToQuat r rot_type = .ok q' → unitQ q' →
        rotMat3 (decompose (trMat (translation.getD (decompose obj.matrix_world).1) *
          movementRotMat q *
          scaleChain (scale.getD (decompose obj.matrix_world).2.2))).2.1 =
          rotMat3 q' := by
      intro q' hq' hu'
      rw [hq] at hq'
      injection hq' with he
      subst he
      rw [movementRotMat_eq q]
      refine ((decompose_assembled _ _ _ (frv_unit _) hspos).2.2).trans ?_
      rcases frv_arv q hu' with h | h
      · rw [h]
      · rw [h, rotMat3_neg]
    refine ⟨_, set_world_pose_some obj r translation rot_type scale q hq, rfl,
      ?_, ?_, ?_, ?_, ?_, ?_, ?_, ?_⟩
    · rw [movementRotMat_eq q]
      exact (decompose_assembled _ _ _ (frv_unit _) hspos).1
    · rw [movementRotMat_eq q]
      exact (decompose_assembled _ _ _ (frv_unit _) hspos).2.1
    · intro hcontra
      exact absurd hcontra (by simp)
    · intro r' q'' hr' hq'' hu''
      injection hr' with hre
      subst hre
      exact hrotgen q'' hq'' hu''
    · intro w x y z hr2 hty hu
      injection hr2 with hr3
      subst hr3
      subst hty
      exact hrotgen ⟨w, x, y, z⟩ rfl hu
    · intro a b g hr2 hty
      injection hr2 with hr3
      subst hr3
      subst hty
      exact hrotgen (from_euler_angles a b g) rfl (from_euler_angles_unit a b g)
    · intro a b c hr2 hty
      injection hr2 with hr3
      subst hr3
      subst hty
      exact hrotgen (from_rotation_vector ![a, b, c]) rfl (frv_unit _)
    · intro rows p hr2 hty hm hup hpm
      injection hr2 with hr3
      subst hr3
      subst hty
      have hconv : movementToQuat (.mat rows) "rot_mat" =
          .ok (from_rotation_matrix (m3ofRows rows)) := by
        simp [movementToQuat, hm]
      have hspec := from_rotation_matrix_spec (m3ofRows rows) ⟨p, hup, hpm⟩
      exact (hrotgen (from_rotation_matrix (m3ofRows rows)) hconv hspec.1).trans hspec.2

/-- C6 witness: a call that supplies every component — the identity unit
quaternion under `'quaternion'`, a translation and a positive scale — on a
concrete object; each given component is reproduced by the decomposition and
the non-transform attribute is untouched. -/
theorem C6_set_world_pose_frame_witness :
    ∃ obj2 : BObject ℕ,
      set_world_pose (⟨1, 42⟩ : BObject ℕ) (Option.some (.vec [1, 0, 0, 0]))
          (Option.some ![5, 6, 7]) "quaternion" (Option.some ![2, 3, 4]) =
        (.ok (), obj2) ∧
      obj2.other = (⟨1, 42⟩ : BObject ℕ).other ∧
      (decompose obj2.matrix_world).1 =
        (Option.some ![5, 6, 7] : Option V3).getD
          (decompose (⟨1, 42⟩ : BObject ℕ).matrix_world).1 ∧
      (decompose obj2.matrix_world).2.2 =
        (Option.some ![2, 3, 4] : Option V3).getD
          (decompose (⟨1, 42⟩ : BObject ℕ).matrix_world).2.2 ∧
      ((Option.some (.vec [1, 0, 0, 0]) : Option NpArr) = Option.none →
        rotMat3 (decompose obj2.matrix_world).2.1 =
          rotMat3 (decompose (⟨1, 42⟩ : BObject ℕ).matrix_world).2.1) ∧
      (∀ r q', (Option.some (.vec [1, 0, 0, 0]) : Option NpArr) = Option.some r →
        movementToQuat r "quaternion" = .ok q' → unitQ q' →
        rotMat3 (decompose obj2.matrix_world).2.1 = rotMat3 q') ∧
      (∀ w x y z, (Option.some (.vec [1, 0, 0, 0]) : Option NpArr) =
          Option.some (.vec [w, x, y, z]) →
        "quaternion" = "quaternion" → unitQ (⟨w, x, y, z⟩ : Quat) →
        rotMat3 (decompose obj2.matrix_world).2.1 =
          rotMat3 (⟨w, x, y, z⟩ : Quat)) ∧
      (∀ a b g, (Option.some (.vec [1, 0, 0, 0]) : Option NpArr) =
          Option.some (.vec [a, b, g]) →
        "quaternion" = "euler_ZYZ" →
        rotMat3 (decompose obj2.matrix_world).2.1 =
          rotMat3 (from_euler_angles a b g)) ∧
      (∀ a b c, (Option.some (.vec [1, 0, 0, 0]) : Option NpArr) =
          Option.some (.vec [a, b, c]) →
        "quaternion" = "rot_vec" →
        rotMat3 (decompose obj2.matrix_world).2.1 =
          rotMat3 (from_rotation_vector ![a, b, c])) ∧
      (∀ rows p, (Option.some (.vec [1, 0, 0, 0]) : Option NpArr) =
          Option.some (.mat rows) →
        "quaternion" = "rot_mat" → isMat3 rows = true →
        unitQ p → rotMat3 p = m3ofRows rows →
        rotMat3 (decompose obj2.matrix_world).2.1 = m3ofRows rows) :=
  C6_set_world_pose_frame ℕ ⟨1, 42⟩ (Option.some (.vec [1, 0, 0, 0]))
    (Option.some ![5, 6, 7]) "quaternion" (Option.some ![2, 3, 4])
    (Or.inr ⟨.vec [1, 0, 0, 0], ⟨1, 0, 0, 0⟩, rfl, rfl⟩)
    (by
      intro s hs i
      simp only [Option.mem_def, Option.some.injEq] at hs
      subst hs
      fin_cases i <;> norm_num)

